import Mathlib

/-!
# Shallow embedding of the Suricata bit-level radix (Patricia) tree

This file embeds `src/src/util-radix-tree.c` (functions `SCRadixChopIPAddressAgainstNetmask`,
`SCRadixAppendToSCRadixUserDataList`, `SCRadixCreatePrefix`, `SCRadixPrefixContainNetmask`,
`SCRadixPrefixContainNetmaskAndSetUserData`, `SCRadixAddKey`, `SCRadixRemoveNetblockEntry`,
`SCRadixRemoveKey`, `SCRadixFindKeyIPNetblock`, `SCRadixFindKey` and their thin wrappers) as
executable Lean definitions, and proves properties of them.

Modelling conventions:
* Byte streams are `List Nat` (each entry a byte value); out-of-range reads use `List.getD _ _ 0`
  where the C source would read unchecked through a pointer.
* `void *user` payloads are modelled as `Nat` identifiers; pointers to nodes are modelled as
  value snapshots, where only presence (`some`) versus `NULL` (`none`) is meaningful.
* The C parent pointers are modelled with a zipper: walking down records a list of `Crumb`s,
  walking up pops them (`plug`/`rebuild`).
* The scratch field `SCRadixPrefix.user_data_result`, written by
  `SCRadixPrefixContainNetmaskAndSetUserData`, is modelled as the function's `Option Nat` result
  (`none` = the C function returned 0 / no match, `some u` = it returned 1 after writing `u`).
-/

set_option linter.unusedVariables false

/-- Modelled from the spec: the struct `SCRadixUserData` is declared in the header
`util-radix-tree.h`, which is not part of the sources; the spec describes it as a
`(netmask, user)` tag pair (netmask 0..bitlen, with 255 the generic sentinel), kept in a
singly-linked list. Numeric fields are modelled as `Nat`. -/
structure SCRadixUserData where
  netmask : Nat
  user : Nat
deriving DecidableEq, Repr

/-- Modelled from the spec: the struct `SCRadixPrefix` (header not in the sources) holds the
key `stream` (exactly `bitlen/8` bytes), its `bitlen`, and the list of netmask-tagged user
data entries. The scratch slot `user_data_result` is modelled as a function result instead. -/
structure SCRadixPrefix where
  stream : List Nat
  bitlen : Nat
  user_data : List SCRadixUserData
deriving DecidableEq, Repr

/-- Modelled from the spec: the struct `SCRadixNode` (header not in the sources) holds the
discriminator `bit`, an optional prefix, the netmask-propagation array `netmasks` (with its
count), child pointers and a parent back-pointer.  `null` stands for a NULL node pointer;
the parent pointer is modelled by the zipper (`Crumb`) instead of a field.  The field
`prefix` is named `pfx` here. -/
inductive SCRadixNode : Type where
  | null : SCRadixNode
  | node (bit : Nat) (pfx : Option SCRadixPrefix) (netmasks : List Nat)
      (left right : SCRadixNode) : SCRadixNode
deriving DecidableEq, Repr

/-- Modelled from the spec: `SC_RADIX_BITTEST(x, y)` is `((x) & (y))`; the source applies
it as `SC_RADIX_BITTEST(stream[bit >> 3], (0x80 >> (bit % 8)))`, i.e. testing bit `bit`
of the stream counting from the most significant bit of byte 0. -/
def SCRadixBitTest (stream : List Nat) (bit : Nat) : Bool :=
  Nat.testBit (stream.getD (bit / 8) 0) (7 - bit % 8)

/-- `SCRadixChopIPAddressAgainstNetmask` (util-radix-tree.c:88-107): zero every bit of the
first `key_bitlen/8` bytes beyond position `netmask-1`.  For byte `i` the C code builds
`mask = -1` when the byte is fully inside the netmask, `mask = -1 << ((i+1)*8 - netmask)`
when the netmask ends inside the byte, and `mask = 0` when the byte is fully beyond it,
then does `stream[i] &= mask`. -/
def SCRadixChopIPAddressAgainstNetmask (stream : List Nat) (netmask : Nat)
    (key_bitlen : Nat) : List Nat :=
  (List.range (key_bitlen / 8)).map (fun i =>
    let b := stream.getD i 0
    if (i + 1) * 8 > netmask then
      if (i + 1) * 8 - netmask < 8 then
        (b >>> ((i + 1) * 8 - netmask)) <<< ((i + 1) * 8 - netmask)
      else 0
    else b)

/-- `SCRadixAppendToSCRadixUserDataList` (util-radix-tree.c:156-186): insert a new
`(netmask, user)` entry into the list, in descending order of netmask: the new entry goes
in front of the first entry whose netmask is strictly smaller (so after all entries with a
greater-or-equal netmask). -/
def SCRadixAppendToSCRadixUserDataList (nw : SCRadixUserData) :
    List SCRadixUserData → List SCRadixUserData
  | [] => [nw]
  | x :: xs =>
    if nw.netmask > x.netmask then nw :: x :: xs
    else x :: SCRadixAppendToSCRadixUserDataList nw xs

/-- `SCRadixCreatePrefix` (util-radix-tree.c:201-235): fails (returns NULL, modelled `none`)
when `key_bitlen` is zero or not a multiple of 8; otherwise copies `key_bitlen/8` bytes of
the stream and attaches a single `(netmask, user)` entry.  (The source also returns NULL
for a NULL `key_stream` pointer; a NULL pointer has no counterpart as a Lean list value, so
that check is discussed at the call sites instead.) -/
def SCRadixCreatePrefix (key_stream : List Nat) (key_bitlen : Nat) (user : Nat)
    (netmask : Nat) : Option SCRadixPrefix :=
  if key_bitlen % 8 ≠ 0 ∨ key_bitlen = 0 then none
  else some ⟨(List.range (key_bitlen / 8)).map (fun i => key_stream.getD i 0),
             key_bitlen, [⟨netmask, user⟩]⟩

/-- `SCRadixAddNetmaskUserDataToPrefix` (util-radix-tree.c:246-259): allocate a new
user-data entry and append it to the prefix's list in descending netmask order. -/
def SCRadixAddNetmaskUserDataToPrefix (pfx : SCRadixPrefix) (netmask : Nat)
    (user : Nat) : SCRadixPrefix :=
  { pfx with user_data := SCRadixAppendToSCRadixUserDataList ⟨netmask, user⟩ pfx.user_data }

/-- `SCRadixRemoveNetmaskUserDataFromPrefix` (util-radix-tree.c:269-295): unlink the first
entry with the given netmask, if any. -/
def SCRadixRemoveNetmaskUserDataFromPrefix (netmask : Nat) :
    List SCRadixUserData → List SCRadixUserData
  | [] => []
  | x :: xs => if x.netmask = netmask then xs
               else x :: SCRadixRemoveNetmaskUserDataFromPrefix netmask xs

/-- `SCRadixPrefixContainNetmask` (util-radix-tree.c:307-325): membership test for a
netmask in the prefix's user-data list. -/
def SCRadixPrefixContainNetmask (pfx : SCRadixPrefix) (netmask : Nat) : Bool :=
  pfx.user_data.any (fun ud => ud.netmask == netmask)

/-- `SCRadixPrefixNetmaskCount` (util-radix-tree.c:334-351): length of the prefix's
user-data list. -/
def SCRadixPrefixNetmaskCount (pfx : SCRadixPrefix) : Nat :=
  pfx.user_data.length

/-- `SCRadixPrefixContainNetmaskAndSetUserData` (util-radix-tree.c:369-413).
Exact mode: succeed iff the head entry's netmask equals `bitlen`, writing the head's user.
Non-exact mode: if the head's netmask equals `bitlen`, succeed with the second entry's
user when a second entry exists and fail otherwise; if the head's netmask differs from
`bitlen`, succeed with the head's user.  The `Option Nat` result models the pair
(return value, `prefix->user_data_result`).  On an empty list the C source would
dereference a NULL head in exact mode (the non-exact branch checks for NULL); reachable
trees never store an empty list (see the non-empty user-data invariant below), and the
model returns `none` for the empty list. -/
def SCRadixPrefixContainNetmaskAndSetUserData (pfx : SCRadixPrefix) (bitlen : Nat)
    (exact_match : Bool) : Option Nat :=
  match pfx.user_data with
  | [] => none
  | hd :: tl =>
    if exact_match then
      if hd.netmask = bitlen then some hd.user else none
    else
      if hd.netmask = bitlen then
        match tl with
        | [] => none
        | hd2 :: _ => some hd2.user
      else some hd.user

/-! ## Zipper: parent pointers as breadcrumbs -/

/-- One step of the parent chain: the data of a parent node minus the child we descended
into.  `wentRight = true` means the plugged child sits in the parent's `right` slot and
`other` is the `left` child. -/
structure Crumb where
  bit : Nat
  pfx : Option SCRadixPrefix
  netmasks : List Nat
  wentRight : Bool
  other : SCRadixNode
deriving DecidableEq, Repr

/-- Reattach a node to its parent crumb. -/
def plug (n : SCRadixNode) (c : Crumb) : SCRadixNode :=
  if c.wentRight then .node c.bit c.pfx c.netmasks c.other n
  else .node c.bit c.pfx c.netmasks n c.other

/-- Reattach a node through its whole parent chain, producing the tree head. -/
def rebuild : SCRadixNode → List Crumb → SCRadixNode
  | n, [] => n
  | n, c :: rest => rebuild (plug n c) rest

/-- The `bit` field of a node (0 for a NULL node; the source never reads it on NULL). -/
def nodeBit : SCRadixNode → Nat
  | .null => 0
  | .node b _ _ _ _ => b

/-- The `prefix` field of a node. -/
def nodePfx : SCRadixNode → Option SCRadixPrefix
  | .null => none
  | .node _ p _ _ _ => p

/-- The `netmasks` array of a node (empty for NULL). -/
def nodeNetmasks : SCRadixNode → List Nat
  | .null => []
  | .node _ _ nm _ _ => nm

/-- The `left` child of a node. -/
def nodeLeft : SCRadixNode → SCRadixNode
  | .null => .null
  | .node _ _ _ l _ => l

/-- The `right` child of a node. -/
def nodeRight : SCRadixNode → SCRadixNode
  | .null => .null
  | .node _ _ _ _ r => r

/-- `node->prefix->stream` of the bottom node in `SCRadixAddKey`'s differ loop
(util-radix-tree.c:650).  The source dereferences the prefix unchecked; in reachable
trees the walk only stops at a prefix-bearing node or one whose relevant bytes are never
read, and the model returns `[]` (all reads default to byte 0) otherwise. -/
def bottomPfxStream : SCRadixNode → List Nat
  | .node _ (some q) _ _ _ => q.stream
  | _ => []

/-! ## The descent of `SCRadixAddKey` (util-radix-tree.c:620-641) -/

/-- The walk-down loop of `SCRadixAddKey`: continue while `node->bit < bitlen` or the node
has no prefix; go right when `bitlen < node->bit`, otherwise by bit `node->bit` of the key;
stop (keeping the current node) when the chosen child is NULL.  Returns the stopping node
together with the crumbs recorded on the way down. -/
def addDescend (stream : List Nat) (bitlen : Nat) :
    SCRadixNode → List Crumb → SCRadixNode × List Crumb
  | .null, ctx => (.null, ctx)
  | .node b p nm l r, ctx =>
    if b < bitlen ∨ p.isNone then
      if bitlen < b then
        match r with
        | .null => (.node b p nm l r, ctx)
        | rc => addDescend stream bitlen rc (⟨b, p, nm, true, l⟩ :: ctx)
      else if SCRadixBitTest stream b then
        match r with
        | .null => (.node b p nm l r, ctx)
        | rc => addDescend stream bitlen rc (⟨b, p, nm, true, l⟩ :: ctx)
      else
        match l with
        | .null => (.node b p nm l r, ctx)
        | lc => addDescend stream bitlen lc (⟨b, p, nm, false, r⟩ :: ctx)
    else (.node b p nm l r, ctx)

/-! ## First differing bit (util-radix-tree.c:647-680) -/

/-- The branchless position cascade of `SCRadixAddKey` (util-radix-tree.c:658-674): for a
non-zero XOR byte `temp`, the index (from the most significant bit) of its first set bit. -/
def firstDifferBitInByte (temp : Nat) : Nat :=
  let t := temp * 2
  if t ≥ 256 then 0
  else if t ≥ 128 then 1
  else if t ≥ 64 then 2
  else if t ≥ 32 then 3
  else if t ≥ 16 then 4
  else if t ≥ 8 then 5
  else if t ≥ 4 then 6
  else if t ≥ 2 then 7
  else 0

/-- The byte loop of the differ computation: over indices `i` with `i*8 < check_bit`;
equal bytes push `differ_bit` to `(i+1)*8`, the first unequal byte fixes it inside that
byte and stops. -/
def differLoop (stream pstream : List Nat) : List Nat → Nat → Nat
  | [], differ => differ
  | i :: rest, differ =>
    let temp := Nat.xor (stream.getD i 0) (pstream.getD i 0)
    if temp = 0 then differLoop stream pstream rest ((i + 1) * 8)
    else i * 8 + firstDifferBitInByte temp

/-- The full differ-bit computation of `SCRadixAddKey` (util-radix-tree.c:647-680),
including the final clamp `if (check_bit < differ_bit) differ_bit = check_bit`. -/
def computeDifferBit (stream pstream : List Nat) (check_bit : Nat) : Nat :=
  min (differLoop stream pstream (List.range ((check_bit + 7) / 8)) 0) check_bit

/-! ## Climbs (util-radix-tree.c:683-687, 714-718, 834-838) -/

/-- The climb after the differ computation (util-radix-tree.c:683-687): walk up while the
parent exists and `differ_bit <= parent->bit`. -/
def climbWhileDifferLE (differ_bit : Nat) :
    SCRadixNode → List Crumb → SCRadixNode × List Crumb
  | n, [] => (n, [])
  | n, c :: rest =>
    if differ_bit ≤ c.bit then climbWhileDifferLE differ_bit (plug n c) rest
    else (n, c :: rest)

/-- The netmask-registration climb (util-radix-tree.c:714-718 and 834-838): walk up while
the parent exists and `netmask < parent->bit + 1`. -/
def registerNetmaskClimb (netmask : Nat) :
    SCRadixNode → List Crumb → SCRadixNode × List Crumb
  | n, [] => (n, [])
  | n, c :: rest =>
    if netmask < c.bit + 1 then registerNetmaskClimb netmask (plug n c) rest
    else (n, c :: rest)

/-! ## The sorted insertion into a node's `netmasks` array
(util-radix-tree.c:720-742 and 840-862) -/

/-- The in-place insertion loop of `SCRadixAddKey`: with `netmask` freshly appended at the
end of the array, walk `i` from `cnt-2` down to `0`; if `netmask < a[i]` write `netmask`
at `i+1` and stop, otherwise shift `a[i]` one slot right and put `netmask` at `i`.
The fuel argument is `i+1` (so fuel `0` means the loop is done). -/
def SCRadixNetmaskInsertLoop (netmask : Nat) : List Nat → Nat → List Nat
  | a, 0 => a
  | a, i + 1 =>
    if netmask < a.getD i 0 then a.set (i + 1) netmask
    else SCRadixNetmaskInsertLoop netmask ((a.set (i + 1) (a.getD i 0)).set i netmask) i

/-- The netmask insertion of `SCRadixAddKey` on a node's `netmasks` array: grow the array
by one, put `netmask` in the last slot, and run the insertion loop from index `cnt-2`. -/
def SCRadixInsertNetmask (netmask : Nat) (l : List Nat) : List Nat :=
  SCRadixNetmaskInsertLoop netmask (l ++ [netmask]) l.length

/-- Insert a netmask into a node's `netmasks` array (identity on NULL, which the source
never does). -/
def insertNetmaskAt : SCRadixNode → Nat → SCRadixNode
  | .null, _ => .null
  | .node b p nm l r, m => .node b p (SCRadixInsertNetmask m nm) l r

/-! ## The netmask partition of Case C (util-radix-tree.c:787-809) -/

/-- The partition of the existing node's `netmasks` array when an intermediate node with
bit `differ_bit` is created: the loop finds the first index `i` with
`netmasks[i] < differ_bit + 1`; entries before `i` stay on the existing node (first
component), entries from `i` on move to the intermediate node (second component). -/
def SCRadixSplitNetmasks (netmasks : List Nat) (differ_bit : Nat) :
    List Nat × List Nat :=
  (netmasks.takeWhile (fun m => ¬ m < differ_bit + 1),
   netmasks.dropWhile (fun m => ¬ m < differ_bit + 1))

/-! ## `SCRadixAddKey` (util-radix-tree.c:551-866) -/

/-- The data `SCRadixAddKey` works with after its walk down, differ-bit computation and
climb: the bottom node of the walk, the climbed node (`node` in the source), its parent
chain, and the differ bit. -/
structure AddLocus where
  bottom : SCRadixNode
  cur : SCRadixNode
  ctx : List Crumb
  differ_bit : Nat
deriving DecidableEq, Repr

/-- The attachment point of an insertion: run the descent from the head, compute
`check_bit = min(node->bit, bitlen)` and the differ bit against the bottom node's prefix
stream, then climb while `differ_bit <= parent->bit`. -/
def addKeyLocus (stream : List Nat) (bitlen : Nat) (head : SCRadixNode) : AddLocus :=
  let bc := addDescend stream bitlen head []
  let check_bit := min (nodeBit bc.1) bitlen
  let differ_bit := computeDifferBit stream (bottomPfxStream bc.1) check_bit
  let cc := climbWhileDifferLE differ_bit bc.1 bc.2
  ⟨bc.1, cc.1, cc.2, differ_bit⟩

/-- The netmask registration of `SCRadixAddKey` (lines 714-742 and 832-862): climb from
the given node while `netmask < parent->bit + 1`, then insert `netmask` into the reached
node's `netmasks` array.  Returns the rebuilt tree head together with the flag
`netmask_cnt == 1` (the array was empty before), after which the Case-A path of the
source returns the never-assigned `new_node` (i.e. NULL, util-radix-tree.c:727-729). -/
def addKeyRegisterNetmask (netmask : Nat) (start : SCRadixNode) (ctx : List Crumb) :
    SCRadixNode × SCRadixNode × Bool :=
  let tc := registerNetmaskClimb netmask start ctx
  let t' := insertNetmaskAt tc.1 netmask
  (rebuild t' tc.2, t', nodeNetmasks tc.1 = [])

/-- Case A of `SCRadixAddKey` (util-radix-tree.c:690-749): the climbed node has
`bit == differ_bit == bitlen`.  With a prefix: a contained netmask is a silent duplicate;
otherwise the `(netmask, user)` entry is added and a non-host netmask is registered up the
tree — with the source's slip of returning the never-assigned `new_node` (NULL) when the
registration target's array was empty (lines 727-729).  Without a prefix: attach a fresh
prefix tagged 255.  `stream`/`pfxbitlen` are `prefix->stream` / `prefix->bitlen`. -/
def addKeyCaseA (stream : List Nat) (pfxbitlen : Nat) (user netmask : Nat) :
    SCRadixNode → List Crumb → SCRadixNode × Option SCRadixNode
  | .null, ctx => (rebuild .null ctx, none)   -- never reached from SCRadixAddKey
  | .node b p nm l r, ctx =>
    match p with
    | some q =>
      if SCRadixPrefixContainNetmask q netmask then
        -- perfect duplicate: nothing changes
        (rebuild (.node b (some q) nm l r) ctx, some (.node b (some q) nm l r))
      else if netmask = 255 ∨ netmask = 32 ∨ netmask = 128 then
        (rebuild (.node b (some (SCRadixAddNetmaskUserDataToPrefix q netmask user)) nm l r) ctx,
         some (.node b (some (SCRadixAddNetmaskUserDataToPrefix q netmask user)) nm l r))
      else
        ((addKeyRegisterNetmask netmask
            (.node b (some (SCRadixAddNetmaskUserDataToPrefix q netmask user)) nm l r) ctx).1,
         if (addKeyRegisterNetmask netmask
            (.node b (some (SCRadixAddNetmaskUserDataToPrefix q netmask user)) nm l r) ctx).2.2
         then none
         else some (addKeyRegisterNetmask netmask
            (.node b (some (SCRadixAddNetmaskUserDataToPrefix q netmask user)) nm l r) ctx).2.1)
    | none =>
      -- attach a prefix to a purely interior node, with netmask 255
      (rebuild (.node b (SCRadixCreatePrefix stream pfxbitlen user 255) nm l r) ctx,
       some (.node b (SCRadixCreatePrefix stream pfxbitlen user 255) nm l r))

/-- The tail of Cases B and C of `SCRadixAddKey` (util-radix-tree.c:831-865): register a
non-host, non-sentinel netmask walking up from the spliced-in node, and return the new
tree head together with the (snapshot of the) new node. -/
def addKeyFinish (netmask : Nat) (start : SCRadixNode) (ctx : List Crumb)
    (ret : SCRadixNode) : SCRadixNode × Option SCRadixNode :=
  if netmask ≠ 255 ∧ netmask ≠ 32 ∧ netmask ≠ 128 then
    ((addKeyRegisterNetmask netmask start ctx).1, some ret)
  else (rebuild start ctx, some ret)

/-- Case B of `SCRadixAddKey` (util-radix-tree.c:760-776): `differ_bit == bitlen` but the
climbed node's bit differs; the new leaf is spliced in above the climbed node, which
becomes its left or right child according to bit `differ_bit` of the bottom node's
prefix stream. -/
def addKeyCaseB (pfx : SCRadixPrefix) (netmask : Nat) (bottomStream : List Nat)
    (differ_bit : Nat) (cur : SCRadixNode) (ctx : List Crumb) :
    SCRadixNode × Option SCRadixNode :=
  if SCRadixBitTest bottomStream differ_bit then
    addKeyFinish netmask (.node pfx.bitlen (some pfx) [] .null cur) ctx
      (.node pfx.bitlen (some pfx) [] .null cur)
  else
    addKeyFinish netmask (.node pfx.bitlen (some pfx) [] cur .null) ctx
      (.node pfx.bitlen (some pfx) [] cur .null)

/-- Case C of `SCRadixAddKey` (util-radix-tree.c:781-829): create a prefix-less
intermediate node with bit `differ_bit`, partition the existing node's `netmasks`
(leading entries `≥ differ_bit + 1` stay, the rest move to the intermediate node), and
orient the two children by bit `differ_bit` of the new key. -/
def addKeyCaseC (pfx : SCRadixPrefix) (netmask : Nat) (stream : List Nat)
    (differ_bit : Nat) : SCRadixNode → List Crumb → SCRadixNode × Option SCRadixNode
  | .null, ctx => (rebuild .null ctx, none)   -- never reached from SCRadixAddKey
  | .node b p nm l r, ctx =>
    addKeyFinish netmask (.node pfx.bitlen (some pfx) [] .null .null)
      (⟨differ_bit, none, (SCRadixSplitNetmasks nm differ_bit).2,
        SCRadixBitTest stream differ_bit,
        .node b p (SCRadixSplitNetmasks nm differ_bit).1 l r⟩ :: ctx)
      (.node pfx.bitlen (some pfx) [] .null .null)

/-- The three-way case dispatch of `SCRadixAddKey` after the walk, differ computation and
climb: Case A when `differ_bit == bitlen && node->bit == bitlen`, else Case B when
`differ_bit == bitlen`, else Case C.  (`bitlen` here is the `uint8_t`-truncated
`prefix->bitlen % 256` used in the comparisons, while the new nodes and Case A's
re-created prefix use the untruncated `prefix->bitlen`.) -/
def addKeyDispatch (pfx : SCRadixPrefix) (user netmask : Nat) (lc : AddLocus) :
    SCRadixNode × Option SCRadixNode :=
  if lc.differ_bit = pfx.bitlen % 256 ∧ nodeBit lc.cur = pfx.bitlen % 256 then
    addKeyCaseA pfx.stream pfx.bitlen user netmask lc.cur lc.ctx
  else if lc.differ_bit = pfx.bitlen % 256 then
    addKeyCaseB pfx netmask (bottomPfxStream lc.bottom) lc.differ_bit lc.cur lc.ctx
  else
    addKeyCaseC pfx netmask pfx.stream lc.differ_bit lc.cur lc.ctx

/-- `SCRadixAddKey` (util-radix-tree.c:551-866).  Chops the key against the netmask,
materialises the prefix (failure leaves the tree untouched and returns NULL), then:
empty tree → new root (registering a non-host netmask on it); otherwise descend, find the
differ bit, climb, and do Case A (exact node: duplicate / extra netmask entry / attach a
netmask-255 prefix to a prefix-less node), Case B (`differ_bit == bitlen`: splice the new
leaf above the climbed node) or Case C (create an intermediate node at `differ_bit`,
partitioning the existing node's `netmasks`), followed by the non-host netmask
registration.  Returns the new tree head and the C function's return value (`none` =
NULL).  The local `bitlen` is a `uint8_t` in the source, hence the `% 256`. -/
def SCRadixAddKey (key_stream : List Nat) (key_bitlen : Nat) (head : SCRadixNode)
    (user : Nat) (netmask : Nat) : SCRadixNode × Option SCRadixNode :=
  match SCRadixCreatePrefix
      (SCRadixChopIPAddressAgainstNetmask key_stream netmask key_bitlen)
      key_bitlen user netmask with
  | none => (head, none)
  | some pfx =>
    match head with
    | .null =>
      if netmask = 255 ∨ netmask = 32 ∨ netmask = 128 then
        (.node pfx.bitlen (some pfx) [] .null .null,
         some (.node pfx.bitlen (some pfx) [] .null .null))
      else
        (.node pfx.bitlen (some pfx) [netmask] .null .null,
         some (.node pfx.bitlen (some pfx) [netmask] .null .null))
    | .node hb hpp hnm hl hr =>
      addKeyDispatch pfx user netmask
        (addKeyLocus pfx.stream (pfx.bitlen % 256) (.node hb hpp hnm hl hr))

/-- `SCRadixAddKeyGeneric` (util-radix-tree.c:880-886): add with the sentinel netmask 255. -/
def SCRadixAddKeyGeneric (key_stream : List Nat) (key_bitlen : Nat)
    (head : SCRadixNode) (user : Nat) : SCRadixNode × Option SCRadixNode :=
  SCRadixAddKey key_stream key_bitlen head user 255

/-- `SCRadixAddKeyIPV4` (util-radix-tree.c:899-905). -/
def SCRadixAddKeyIPV4 (key_stream : List Nat) (head : SCRadixNode) (user : Nat) :
    SCRadixNode × Option SCRadixNode :=
  SCRadixAddKey key_stream 32 head user 32

/-- `SCRadixAddKeyIPV6` (util-radix-tree.c:918-924). -/
def SCRadixAddKeyIPV6 (key_stream : List Nat) (head : SCRadixNode) (user : Nat) :
    SCRadixNode × Option SCRadixNode :=
  SCRadixAddKey key_stream 128 head user 128

/-- `SCRadixAddKeyIPV4Netblock` (util-radix-tree.c:938-944). -/
def SCRadixAddKeyIPV4Netblock (key_stream : List Nat) (head : SCRadixNode)
    (user : Nat) (netmask : Nat) : SCRadixNode × Option SCRadixNode :=
  SCRadixAddKey key_stream 32 head user netmask

/-- `SCRadixAddKeyIPV6Netblock` (util-radix-tree.c:958-964). -/
def SCRadixAddKeyIPV6Netblock (key_stream : List Nat) (head : SCRadixNode)
    (user : Nat) (netmask : Nat) : SCRadixNode × Option SCRadixNode :=
  SCRadixAddKey key_stream 128 head user netmask

/-! ## The strict Patricia walk of removal and lookup
(util-radix-tree.c:1081-1091, 1292-1302, 1347-1357) -/

/-- The strict descent loop shared by `SCRadixRemoveKey`, `SCRadixFindKey` and the inner
loop of `SCRadixFindKeyIPNetblock`: while `node->bit < bitlen` step into the child chosen
by bit `node->bit` of the query; reaching a NULL child makes the caller return NULL
(`none`). -/
def strictDescendCtx (stream : List Nat) (bitlen : Nat) :
    SCRadixNode → List Crumb → Option (SCRadixNode × List Crumb)
  | .null, _ => none
  | .node b p nm l r, ctx =>
    if b < bitlen then
      if SCRadixBitTest stream b then
        strictDescendCtx stream bitlen r (⟨b, p, nm, true, l⟩ :: ctx)
      else
        strictDescendCtx stream bitlen l (⟨b, p, nm, false, r⟩ :: ctx)
    else some (.node b p nm l r, ctx)

/-- The stream comparison of `SCRadixRemoveKey` / `SCRadixFindKey` /
`SCRadixFindKeyIPNetblock` (e.g. util-radix-tree.c:1096-1101): `memcmp` over
`bitlen/8` whole bytes, then — only when `bitlen % 8 != 0` — a comparison of the top
`bitlen % 8` bits of the next byte under `mask = -1 << (8 - bitlen % 8)`. -/
def streamsMatch (a b : List Nat) (bitlen : Nat) : Bool :=
  let bytes := bitlen / 8
  ((List.range bytes).all (fun i => a.getD i 0 == b.getD i 0)) &&
  (bitlen % 8 == 0 ||
    ((a.getD bytes 0) >>> (8 - bitlen % 8) == (b.getD bytes 0) >>> (8 - bitlen % 8)))

/-- The query prefix stream built by `SCRadixCreatePrefix` for removal/lookup: the first
`key_bitlen/8` bytes of the key. -/
def queryStream (key_stream : List Nat) (key_bitlen : Nat) : List Nat :=
  (List.range (key_bitlen / 8)).map (fun i => key_stream.getD i 0)

/-! ## `SCRadixRemoveNetblockEntry` and `SCRadixRemoveKey`
(util-radix-tree.c:1001-1052, 1063-1179) -/

/-- The netmask-array deletion inside `SCRadixRemoveNetblockEntry`
(util-radix-tree.c:1024-1045): find the first occurrence of `netmask`, shift the
following entries left and shrink the array by one. -/
def removeFirstNetmask (netmask : Nat) : List Nat → List Nat
  | [] => []
  | x :: xs => if x = netmask then xs else x :: removeFirstNetmask netmask xs

/-- `SCRadixRemoveNetblockEntry` (util-radix-tree.c:1001-1052): remove the user-data entry
with the given netmask from the node's prefix; for a netmask other than 32 and 128, also
look for the netmask in `node->netmasks` and drop its first occurrence when present (when
absent the source only logs "Something's wrong with the tree").  The source computes a
climbed `local_node` (lines 1017-1022) but then searches `node`, not `local_node`; the
dead climb is omitted here since it has no effect. -/
def SCRadixRemoveNetblockEntry (cur : SCRadixNode) (netmask : Nat) : SCRadixNode :=
  match cur with
  | .null => .null
  | .node b p nm l r =>
    let p' := p.map (fun q =>
      { q with user_data := SCRadixRemoveNetmaskUserDataFromPrefix netmask q.user_data })
    if netmask = 32 ∨ netmask = 128 then .node b p' nm l r
    else if nm.contains netmask then
      .node b p' (removeFirstNetmask netmask nm) l r
    else .node b p' nm l r

/-- `SCRadixTransferNetmasksBWNodes` (util-radix-tree.c:966-990): append the source
node's `netmasks` onto the destination node's. -/
def SCRadixTransferNetmasksBWNodes (dest : SCRadixNode) (srcNetmasks : List Nat) :
    SCRadixNode :=
  match dest with
  | .null => .null
  | .node b p nm l r => .node b p (nm ++ srcNetmasks) l r

/-- The tail of `SCRadixRemoveKey` after the strict descent (util-radix-tree.c:1089-1178):
fail silently when the walk died, or stopped at a node without `bit == bitlen`, without a
prefix, with a non-matching stream, or without the netmask entry.  With more than one
user-data entry delegate to `SCRadixRemoveNetblockEntry`; a sole-tenant root empties the
tree; otherwise the node and its parent are unlinked, the sibling taking the parent's
place with the parent's `netmasks` appended. -/
def SCRadixRemoveKeyAt (qs : List Nat) (kb netmask : Nat) (head : SCRadixNode) :
    Option (SCRadixNode × List Crumb) → SCRadixNode
  | none => head
  | some (.null, _) => head
  | some (.node b p nm l r, ctx) =>
    if b ≠ kb then head
    else match p with
    | none => head
    | some q =>
      if ¬ streamsMatch q.stream qs kb then head
      else if ¬ SCRadixPrefixContainNetmask q netmask then head
      else if SCRadixPrefixNetmaskCount q > 1 then
        rebuild (SCRadixRemoveNetblockEntry (.node b (some q) nm l r) netmask) ctx
      else
        match ctx with
        | [] => .null
        | c :: rest =>
          rebuild (SCRadixTransferNetmasksBWNodes c.other c.netmasks) rest

/-- `SCRadixRemoveKey` (util-radix-tree.c:1063-1179): build a query prefix (invalid bitlen
→ silent return), descend strictly; fail silently unless the walk ends at a node with
`bit == bitlen` carrying a prefix whose stream matches the query and whose user-data list
contains the netmask.  With more than one user-data entry only the netblock entry is
removed; a sole-tenant root is freed; otherwise the node is unlinked, its parent replaced
by the sibling, and the parent's `netmasks` appended onto the sibling. -/
def SCRadixRemoveKey (key_stream : List Nat) (key_bitlen : Nat) (head : SCRadixNode)
    (netmask : Nat) : SCRadixNode :=
  match head with
  | .null => head
  | .node _ _ _ _ _ =>
    if key_bitlen % 8 ≠ 0 ∨ key_bitlen = 0 then head
    else SCRadixRemoveKeyAt (queryStream key_stream key_bitlen) key_bitlen netmask head
      (strictDescendCtx (queryStream key_stream key_bitlen) key_bitlen head [])

/-- `SCRadixRemoveKeyGeneric` (util-radix-tree.c:1189-1193). -/
def SCRadixRemoveKeyGeneric (key_stream : List Nat) (key_bitlen : Nat)
    (head : SCRadixNode) : SCRadixNode :=
  SCRadixRemoveKey key_stream key_bitlen head 255

/-- `SCRadixRemoveKeyIPV4Netblock` (util-radix-tree.c:1203-1207). -/
def SCRadixRemoveKeyIPV4Netblock (key_stream : List Nat) (head : SCRadixNode)
    (netmask : Nat) : SCRadixNode :=
  SCRadixRemoveKey key_stream 32 head netmask

/-- `SCRadixRemoveKeyIPV4` (util-radix-tree.c:1219-1222). -/
def SCRadixRemoveKeyIPV4 (key_stream : List Nat) (head : SCRadixNode) : SCRadixNode :=
  SCRadixRemoveKey key_stream 32 head 32

/-- `SCRadixRemoveKeyIPV6Netblock` (util-radix-tree.c:1232-1236). -/
def SCRadixRemoveKeyIPV6Netblock (key_stream : List Nat) (head : SCRadixNode)
    (netmask : Nat) : SCRadixNode :=
  SCRadixRemoveKey key_stream 128 head netmask

/-- `SCRadixRemoveKeyIPV6` (util-radix-tree.c:1248-1251). -/
def SCRadixRemoveKeyIPV6 (key_stream : List Nat) (head : SCRadixNode) : SCRadixNode :=
  SCRadixRemoveKey key_stream 128 head 128

/-! ## `SCRadixFindKeyIPNetblock` and `SCRadixFindKey`
(util-radix-tree.c:1260-1319, 1330-1378) -/

/-- Outcome of the netmask loop of `SCRadixFindKeyIPNetblock` (util-radix-tree.c:1279-1316):
either a hard NULL return, a match, or fall-through to the recursion with the (cumulatively
chopped) query stream and the current walk position, both of which persist across loop
iterations in the source. -/
inductive NBOutcome : Type where
  | nullRet : NBOutcome
  | found (n : SCRadixNode) (user : Nat) : NBOutcome
  | notFound (stream : List Nat) (node : SCRadixNode) : NBOutcome
deriving DecidableEq, Repr

/-- A descent without breadcrumbs, for the inner walk of the netmask loop (the loop never
climbs from the descended position). -/
def strictDescend (stream : List Nat) (bitlen : Nat) :
    SCRadixNode → Option SCRadixNode
  | .null => none
  | .node b p nm l r =>
    if b < bitlen then
      if SCRadixBitTest stream b then strictDescend stream bitlen r
      else strictDescend stream bitlen l
    else some (.node b p nm l r)

/-- The loop over `netmask_node->netmasks` (util-radix-tree.c:1279-1316): chop the shared
query stream against the netmask (in place, so the chops accumulate), walk down from the
current position, return NULL on a NULL child or on a stopping node without
`bit == bitlen` or without a prefix; on a full stream match consult
`SCRadixPrefixContainNetmaskAndSetUserData` in non-exact mode; otherwise continue with the
next netmask. -/
def netblockLoop (bitlen : Nat) : List Nat → List Nat → SCRadixNode → NBOutcome
  | [], stream, node => .notFound stream node
  | m :: ms, stream, node =>
    let stream' := SCRadixChopIPAddressAgainstNetmask stream m bitlen
    match strictDescend stream' bitlen node with
    | none => .nullRet
    | some n' =>
      match n' with
      | .null => .nullRet
      | .node b p nm l r =>
        if b ≠ bitlen then .nullRet
        else match p with
        | none => .nullRet
        | some q =>
          if streamsMatch q.stream stream' bitlen then
            match SCRadixPrefixContainNetmaskAndSetUserData q bitlen false with
            | some u => .found (.node b (some q) nm l r) u
            | none => netblockLoop bitlen ms stream' (.node b (some q) nm l r)
          else netblockLoop bitlen ms stream' (.node b (some q) nm l r)

/-- `SCRadixFindKeyIPNetblock` (util-radix-tree.c:1260-1319): climb from the current node
while `netmasks` is empty (reaching NULL above the root → no match); run the netmask loop
from the netmask node; on fall-through recurse from the netmask node's parent with the
chopped stream. -/
def SCRadixFindKeyIPNetblock (bitlen : Nat) :
    List Nat → SCRadixNode → List Crumb → Option (SCRadixNode × Nat)
  | stream, cur, ctx =>
    match cur with
    | .null =>
      -- the climb ran past the root: return NULL
      none
    | .node b p nm l r =>
      if nm = [] then
        match ctx with
        | [] => none
        | c :: rest => SCRadixFindKeyIPNetblock bitlen stream (plug (.node b p nm l r) c) rest
      else
        match netblockLoop bitlen nm stream (.node b p nm l r) with
        | .found n u => some (n, u)
        | .nullRet => none
        | .notFound stream' _ =>
          match ctx with
          | [] => none
          | c :: rest =>
            SCRadixFindKeyIPNetblock bitlen stream' (plug (.node b p nm l r) c) rest

/-- The tail of `SCRadixFindKey` after the strict descent (util-radix-tree.c:1355-1377):
NULL when the walk died or stopped at a node without `bit == bitlen` or without a prefix;
on a full stream match consult `SCRadixPrefixContainNetmaskAndSetUserData`; on failure
exact mode returns NULL and best-match mode falls back to `SCRadixFindKeyIPNetblock`. -/
def SCRadixFindKeyAt (qs : List Nat) (kb : Nat) (exact_match : Bool) :
    Option (SCRadixNode × List Crumb) → Option (SCRadixNode × Nat)
  | none => none
  | some (.null, _) => none
  | some (.node b p nm l r, ctx) =>
    if b ≠ kb then none
    else match p with
    | none => none
    | some q =>
      if streamsMatch q.stream qs kb then
        match SCRadixPrefixContainNetmaskAndSetUserData q kb exact_match with
        | some u => some (.node b (some q) nm l r, u)
        | none =>
          if exact_match then none
          else SCRadixFindKeyIPNetblock kb qs (.node b (some q) nm l r) ctx
      else
        if exact_match then none
        else SCRadixFindKeyIPNetblock kb qs (.node b (some q) nm l r) ctx

/-- `SCRadixFindKey` (util-radix-tree.c:1330-1378): build a query prefix (invalid bitlen →
NULL), descend strictly; NULL when the walk dies or stops at a node without `bit == bitlen`
or without a prefix; on a full stream match consult
`SCRadixPrefixContainNetmaskAndSetUserData` with the given mode; on failure, exact mode
returns NULL and best-match mode falls back to `SCRadixFindKeyIPNetblock` from the stopping
node.  The result pairs the found node with the selected user (`user_data_result`). -/
def SCRadixFindKey (key_stream : List Nat) (key_bitlen : Nat) (head : SCRadixNode)
    (exact_match : Bool) : Option (SCRadixNode × Nat) :=
  match head with
  | .null => none
  | .node _ _ _ _ _ =>
    if key_bitlen % 8 ≠ 0 ∨ key_bitlen = 0 then none
    else SCRadixFindKeyAt (queryStream key_stream key_bitlen) key_bitlen exact_match
      (strictDescendCtx (queryStream key_stream key_bitlen) key_bitlen head [])

/-- `SCRadixFindKeyGeneric` (util-radix-tree.c:1387-1391). -/
def SCRadixFindKeyGeneric (key_stream : List Nat) (key_bitlen : Nat)
    (head : SCRadixNode) : Option (SCRadixNode × Nat) :=
  SCRadixFindKey key_stream key_bitlen head true

/-- `SCRadixFindKeyIPV4ExactMatch` (util-radix-tree.c:1400-1403). -/
def SCRadixFindKeyIPV4ExactMatch (key_stream : List Nat) (head : SCRadixNode) :
    Option (SCRadixNode × Nat) :=
  SCRadixFindKey key_stream 32 head true

/-- `SCRadixFindKeyIPV4BestMatch` (util-radix-tree.c:1412-1415). -/
def SCRadixFindKeyIPV4BestMatch (key_stream : List Nat) (head : SCRadixNode) :
    Option (SCRadixNode × Nat) :=
  SCRadixFindKey key_stream 32 head false

/-- `SCRadixFindKeyIPV6ExactMatch` (util-radix-tree.c:1424-1427). -/
def SCRadixFindKeyIPV6ExactMatch (key_stream : List Nat) (head : SCRadixNode) :
    Option (SCRadixNode × Nat) :=
  SCRadixFindKey key_stream 128 head true

/-- `SCRadixFindKeyIPV6BestMatch` (util-radix-tree.c:1436-1439). -/
def SCRadixFindKeyIPV6BestMatch (key_stream : List Nat) (head : SCRadixNode) :
    Option (SCRadixNode × Nat) :=
  SCRadixFindKey key_stream 128 head false

/-! ## Claim C1: the concrete best-match scenario -/

/-- The tree of claim C1: empty tree, then the IPv4 netblocks 192.168.0.0/16 (user 1),
192.171.128.0/24 (user 2) and 192.171.192.0/18 (user 3), inserted in that order. -/
def c1Tree : SCRadixNode :=
  (SCRadixAddKeyIPV4Netblock [192, 171, 192, 0]
    (SCRadixAddKeyIPV4Netblock [192, 171, 128, 0]
      (SCRadixAddKeyIPV4Netblock [192, 168, 0, 0] .null 1 16).1 2 24).1 3 18).1

/-- C1: on `c1Tree` (192.168.0.0/16 → user 1, 192.171.128.0/24 → user 2,
192.171.192.0/18 → user 3, inserted in that order into an empty tree), best-match lookup
selects the /16 entry for 192.168.1.6, the /24 entry for 192.171.128.145, the /18 entry
for 192.171.224.6, and misses for 192.171.64.6 and 192.174.224.6. -/
theorem C1_best_match_scenario :
    (SCRadixFindKeyIPV4BestMatch [192, 168, 1, 6] c1Tree).map
      (fun r => (nodePfx r.1, r.2)) =
      some (some ⟨[192, 168, 0, 0], 32, [⟨16, 1⟩]⟩, 1) ∧
    (SCRadixFindKeyIPV4BestMatch [192, 171, 128, 145] c1Tree).map
      (fun r => (nodePfx r.1, r.2)) =
      some (some ⟨[192, 171, 128, 0], 32, [⟨24, 2⟩]⟩, 2) ∧
    (SCRadixFindKeyIPV4BestMatch [192, 171, 224, 6] c1Tree).map
      (fun r => (nodePfx r.1, r.2)) =
      some (some ⟨[192, 171, 192, 0], 32, [⟨18, 3⟩]⟩, 3) ∧
    (SCRadixFindKeyIPV4BestMatch [192, 171, 64, 6] c1Tree) = none ∧
    (SCRadixFindKeyIPV4BestMatch [192, 174, 224, 6] c1Tree) = none := by
  decide

/-! ## Claim C3: order of the netmask-propagation lists -/

/-- Ascending sortedness of a netmask list, as claim C3 states the invariant. -/
def sortedAscB : List Nat → Bool
  | [] => true
  | [_] => true
  | a :: b :: t => (a ≤ b) && sortedAscB (b :: t)

/-- Descending (non-strict) sortedness of a netmask list. -/
def sortedDescB : List Nat → Bool
  | [] => true
  | [_] => true
  | a :: b :: t => (b ≤ a) && sortedDescB (b :: t)

/-- Claim C3's property at a single tree: every node's `netmasks` list is sorted in
ascending order. -/
def allNetmasksAscending : SCRadixNode → Bool
  | .null => true
  | .node _ _ nm l r => sortedAscB nm && allNetmasksAscending l && allNetmasksAscending r

/-- The corrected invariant: every node's `netmasks` list is sorted in descending order. -/
def allNetmasksDescending : SCRadixNode → Bool
  | .null => true
  | .node _ _ nm l r => sortedDescB nm && allNetmasksDescending l && allNetmasksDescending r

/-- C3 counterexample: inserting 10.0.0.0/24 and then 10.0.0.0/16 leaves the root's
propagation list as `[24, 16]`, which is not sorted in ascending order: the insertion
loop of `SCRadixAddKey` keeps the lists in descending order instead. -/
theorem C3_counterexample :
    nodeNetmasks (SCRadixAddKeyIPV4Netblock [10, 0, 0, 0]
      (SCRadixAddKeyIPV4Netblock [10, 0, 0, 0] .null 1 24).1 2 16).1 = [24, 16] ∧
    allNetmasksAscending (SCRadixAddKeyIPV4Netblock [10, 0, 0, 0]
      (SCRadixAddKeyIPV4Netblock [10, 0, 0, 0] .null 1 24).1 2 16).1 = false := by
  decide

/-! ## Claim C4: the Case-C partition of a netmask list -/

/-- C4 counterexample: inserting 10.0.0.0/16 and then the host 10.0.0.1 creates an
intermediate node with `differ_bit = 31` (it becomes the root) out of the node carrying
the propagation list `[16]`.  The claim predicts that the entries `≥ differ_bit + 1 = 32`
(none here) move to the intermediate node and the rest stay, i.e. intermediate `[]` and
original `[16]`; the code does the opposite: the intermediate node receives `[16]` and
the original node keeps `[]`. -/
theorem C4_counterexample :
    let s := (SCRadixAddKeyIPV4Netblock [10, 0, 0, 0] .null 1 16).1
    let t := (SCRadixAddKeyIPV4 [10, 0, 0, 1] s 2).1
    (addKeyLocus [10, 0, 0, 1] 32 s).differ_bit = 31 ∧
    nodeBit t = 31 ∧ nodePfx t = none ∧
    nodeNetmasks t = [16] ∧ nodeNetmasks (nodeLeft t) = [] ∧
    ¬ (nodeNetmasks t = [16].filter (fun m => 31 + 1 ≤ m) ∧
       nodeNetmasks (nodeLeft t) = [16].filter (fun m => m < 31 + 1)) := by
  decide

/-! ## Claim C5: insert followed by remove of the same (key, netmask) -/

/-- The pre-insert tree of claim C5: 10.0.0.0/16 (user 1) and the host 10.0.0.1
(user 2); its root is the intermediate node of bit 31 carrying the propagated `[16]`. -/
def c5Tree : SCRadixNode :=
  (SCRadixAddKeyIPV4 [10, 0, 0, 1]
    (SCRadixAddKeyIPV4Netblock [10, 0, 0, 0] .null 1 16).1 2).1

/-- C5: the code contradicts the claim.  Start from the tree holding 10.0.0.0/16 and the
host 10.0.0.1 (whose root is an intermediate node carrying the propagated `[16]`).
Inserting 10.0.0.0/24 registers 24 on the root (`[24, 16]`), but removing 10.0.0.0/24
again goes through `SCRadixRemoveNetblockEntry`, which searches the netmask in the
prefix-carrying leaf's own (empty) `netmasks` array instead of the climbed ancestor's, so
the stale 24 stays on the root and the tree differs from its pre-insert state. -/
theorem C5_insert_remove_not_identity :
    nodeNetmasks c5Tree = [16] ∧
    nodeNetmasks (SCRadixRemoveKeyIPV4Netblock [10, 0, 0, 0]
      (SCRadixAddKeyIPV4Netblock [10, 0, 0, 0] c5Tree 3 24).1 24) = [24, 16] ∧
    SCRadixRemoveKeyIPV4Netblock [10, 0, 0, 0]
      (SCRadixAddKeyIPV4Netblock [10, 0, 0, 0] c5Tree 3 24).1 24 ≠ c5Tree := by
  decide

/-! ## Claim C6: the return value of adding a netblock to an existing prefix -/

/-- C6: the code contradicts the claim.  Adding the host 10.0.0.0 and then the netblock
10.0.0.0/16 takes the Case-A path of `SCRadixAddKey` that attaches a second netmask
entry to the existing prefix; the entry is added (the user-data list becomes
`[(32,1), (16,2)]` and the netmask is registered), but because the registration target's
`netmasks` array was empty the function returns the never-assigned `new_node`, i.e. NULL,
instead of a node handle (util-radix-tree.c:727-729). -/
theorem C6_add_netblock_returns_null :
    (SCRadixAddKeyIPV4Netblock [10, 0, 0, 0]
      (SCRadixAddKeyIPV4 [10, 0, 0, 0] .null 1).1 2 16).2 = none ∧
    nodePfx (SCRadixAddKeyIPV4Netblock [10, 0, 0, 0]
      (SCRadixAddKeyIPV4 [10, 0, 0, 0] .null 1).1 2 16).1 =
      some ⟨[10, 0, 0, 0], 32, [⟨32, 1⟩, ⟨16, 2⟩]⟩ ∧
    nodeNetmasks (SCRadixAddKeyIPV4Netblock [10, 0, 0, 0]
      (SCRadixAddKeyIPV4 [10, 0, 0, 0] .null 1).1 2 16).1 = [16] := by
  decide

/-! ## Claim C2: the user-selection rules of
`SCRadixPrefixContainNetmaskAndSetUserData` -/

/-- C2: for a prefix with a non-empty user-data list, exact mode succeeds if and only if
the head entry's netmask equals `bitlen`, returning the head's user; in non-exact mode,
when the head's netmask equals `bitlen` the call succeeds exactly when a second entry
exists and then returns the second entry's user, and when the head's netmask differs from
`bitlen` it returns the head entry's user. -/
theorem C2_user_data_selection (q : SCRadixPrefix) (bitlen : Nat)
    (hd : SCRadixUserData) (tl : List SCRadixUserData)
    (hud : q.user_data = hd :: tl) :
    ((SCRadixPrefixContainNetmaskAndSetUserData q bitlen true).isSome
        ↔ hd.netmask = bitlen) ∧
    (hd.netmask = bitlen →
      SCRadixPrefixContainNetmaskAndSetUserData q bitlen true = some hd.user) ∧
    (hd.netmask = bitlen →
      (((SCRadixPrefixContainNetmaskAndSetUserData q bitlen false).isSome ↔ tl ≠ []) ∧
       ∀ hd2 tl2, tl = hd2 :: tl2 →
         SCRadixPrefixContainNetmaskAndSetUserData q bitlen false = some hd2.user)) ∧
    (hd.netmask ≠ bitlen →
      SCRadixPrefixContainNetmaskAndSetUserData q bitlen false = some hd.user) := by
  by_cases h : hd.netmask = bitlen
  · cases tl with
    | nil => simp [SCRadixPrefixContainNetmaskAndSetUserData, hud, h]
    | cons hd2 tl2 => simp [SCRadixPrefixContainNetmaskAndSetUserData, hud, h]
  · simp [SCRadixPrefixContainNetmaskAndSetUserData, hud, h]

/-- Witness for C2 at the concrete prefix holding the descending list
`[(16, 7), (8, 9)]` and query bitlen 16. -/
theorem C2_user_data_selection_witness :
    ((SCRadixPrefixContainNetmaskAndSetUserData ⟨[10, 0, 0, 0], 32,
        [⟨16, 7⟩, ⟨8, 9⟩]⟩ 16 true).isSome
      ↔ (SCRadixUserData.mk 16 7).netmask = 16) ∧
    ((SCRadixUserData.mk 16 7).netmask = 16 →
      SCRadixPrefixContainNetmaskAndSetUserData ⟨[10, 0, 0, 0], 32,
        [⟨16, 7⟩, ⟨8, 9⟩]⟩ 16 true = some 7) ∧
    ((SCRadixUserData.mk 16 7).netmask = 16 →
      (((SCRadixPrefixContainNetmaskAndSetUserData ⟨[10, 0, 0, 0], 32,
          [⟨16, 7⟩, ⟨8, 9⟩]⟩ 16 false).isSome ↔ [(⟨8, 9⟩ : SCRadixUserData)] ≠ []) ∧
       ∀ hd2 tl2, [(⟨8, 9⟩ : SCRadixUserData)] = hd2 :: tl2 →
         SCRadixPrefixContainNetmaskAndSetUserData ⟨[10, 0, 0, 0], 32,
           [⟨16, 7⟩, ⟨8, 9⟩]⟩ 16 false = some hd2.user)) ∧
    ((SCRadixUserData.mk 16 7).netmask ≠ 16 →
      SCRadixPrefixContainNetmaskAndSetUserData ⟨[10, 0, 0, 0], 32,
        [⟨16, 7⟩, ⟨8, 9⟩]⟩ 16 false = some 7) :=
  C2_user_data_selection ⟨[10, 0, 0, 0], 32, [⟨16, 7⟩, ⟨8, 9⟩]⟩ 16 ⟨16, 7⟩ [⟨8, 9⟩] rfl

/-! ## Claim C8: rejection of invalid bitlen -/

/-- C8 (the statable half): for any tree and any insertion whose bitlen is zero or not a
multiple of 8, `SCRadixAddKey` fails (returns NULL) via the `SCRadixCreatePrefix`
validation and leaves the tree untouched.  (The claim's remaining case, a NULL key
stream, is a code bug in the source: `SCRadixAddKey` chops through the NULL pointer
before any validation runs.) -/
theorem C8_invalid_bitlen_rejected (key_stream : List Nat) (key_bitlen : Nat)
    (head : SCRadixNode) (user netmask : Nat)
    (h : key_bitlen % 8 ≠ 0 ∨ key_bitlen = 0) :
    SCRadixAddKey key_stream key_bitlen head user netmask = (head, none) := by
  unfold SCRadixAddKey SCRadixCreatePrefix
  simp [h]

/-- Witness for C8 at bitlen 12. -/
theorem C8_invalid_bitlen_rejected_witness :
    ((12 : Nat) % 8 ≠ 0 ∨ (12 : Nat) = 0) ∧
    SCRadixAddKey [1, 2] 12 .null 5 255 = (.null, none) :=
  ⟨by decide, C8_invalid_bitlen_rejected [1, 2] 12 .null 5 255 (by decide)⟩

/-! ## Per-node invariants and their preservation -/

/-- `allNodesB p t`: the predicate `p` holds of the `(bit, prefix, netmasks)` data of
every node of `t`. -/
def allNodesB (p : Nat → Option SCRadixPrefix → List Nat → Bool) : SCRadixNode → Bool
  | .null => true
  | .node b q nm l r => p b q nm && allNodesB p l && allNodesB p r

/-- The invariant for a breadcrumb: `p` holds of the parent's own data and of the whole
sibling subtree. -/
def crumbB (p : Nat → Option SCRadixPrefix → List Nat → Bool) (c : Crumb) : Bool :=
  p c.bit c.pfx c.netmasks && allNodesB p c.other

/-- The invariant for a whole parent chain. -/
def ctxB (p : Nat → Option SCRadixPrefix → List Nat → Bool) (ctx : List Crumb) : Bool :=
  ctx.all (crumbB p)

theorem allNodesB_plug {p : Nat → Option SCRadixPrefix → List Nat → Bool}
    {n : SCRadixNode} {c : Crumb} :
    allNodesB p (plug n c) = true ↔ (crumbB p c = true ∧ allNodesB p n = true) := by
  obtain ⟨cb, cp, cnm, w, o⟩ := c
  cases w
  · simp [plug, crumbB, allNodesB]; tauto
  · simp [plug, crumbB, allNodesB]

theorem allNodesB_rebuild {p : Nat → Option SCRadixPrefix → List Nat → Bool} :
    ∀ (ctx : List Crumb) (n : SCRadixNode),
    allNodesB p (rebuild n ctx) = true ↔
      (allNodesB p n = true ∧ ctxB p ctx = true) := by
  intro ctx
  induction ctx with
  | nil => intro n; simp [rebuild, ctxB]
  | cons c rest ih =>
    intro n
    simp only [rebuild, ih (plug n c), allNodesB_plug, ctxB, List.all_cons,
      Bool.and_eq_true]
    tauto

/-! Navigation steps do not change the tree that `rebuild` produces. -/

theorem rebuild_addDescend (stream : List Nat) (bitlen : Nat) :
    ∀ (n : SCRadixNode) (ctx : List Crumb),
    rebuild (addDescend stream bitlen n ctx).1 (addDescend stream bitlen n ctx).2 =
      rebuild n ctx := by
  intro n
  induction n with
  | null => intro ctx; rfl
  | node b p nm l r ihl ihr =>
    intro ctx
    unfold addDescend
    split
    · split
      · cases r with
        | null => rfl
        | node rb rp rnm rl rr => exact ihr _
      · split
        · cases r with
          | null => rfl
          | node rb rp rnm rl rr => exact ihr _
        · cases l with
          | null => rfl
          | node lb lp lnm ll lr => exact ihl _
    · rfl

theorem rebuild_climbWhileDifferLE (d : Nat) :
    ∀ (ctx : List Crumb) (n : SCRadixNode),
    rebuild (climbWhileDifferLE d n ctx).1 (climbWhileDifferLE d n ctx).2 =
      rebuild n ctx := by
  intro ctx
  induction ctx with
  | nil => intro n; rfl
  | cons c rest ih =>
    intro n
    unfold climbWhileDifferLE
    split
    · exact ih (plug n c)
    · rfl

theorem rebuild_registerNetmaskClimb (m : Nat) :
    ∀ (ctx : List Crumb) (n : SCRadixNode),
    rebuild (registerNetmaskClimb m n ctx).1 (registerNetmaskClimb m n ctx).2 =
      rebuild n ctx := by
  intro ctx
  induction ctx with
  | nil => intro n; rfl
  | cons c rest ih =>
    intro n
    unfold registerNetmaskClimb
    split
    · exact ih (plug n c)
    · rfl

theorem rebuild_strictDescendCtx (stream : List Nat) (bitlen : Nat) :
    ∀ (n : SCRadixNode) (ctx : List Crumb) (n' : SCRadixNode) (ctx' : List Crumb),
    strictDescendCtx stream bitlen n ctx = some (n', ctx') →
      rebuild n' ctx' = rebuild n ctx := by
  intro n
  induction n with
  | null => intro ctx n' ctx' h; exact absurd h (by simp [strictDescendCtx])
  | node b p nm l r ihl ihr =>
    intro ctx n' ctx' h
    unfold strictDescendCtx at h
    by_cases hb : b < bitlen
    · rw [if_pos hb] at h
      by_cases ht : SCRadixBitTest stream b
      · rw [if_pos ht] at h; exact ihr _ _ _ h
      · rw [if_neg ht] at h; exact ihl _ _ _ h
    · rw [if_neg hb] at h
      injection h with h
      injection h with h1 h2
      rw [← h1, ← h2]

theorem SCRadixCreatePrefix_eq_some {cs : List Nat} {kb user m : Nat}
    {pfx : SCRadixPrefix} (h : SCRadixCreatePrefix cs kb user m = some pfx) :
    pfx = ⟨(List.range (kb / 8)).map (fun i => cs.getD i 0), kb, [⟨m, user⟩]⟩ := by
  unfold SCRadixCreatePrefix at h
  split at h
  · exact absurd h (by simp)
  · injection h with h; exact h.symm

theorem rebuild_addKeyLocus (s : List Nat) (bl : Nat) (head : SCRadixNode) :
    rebuild (addKeyLocus s bl head).cur (addKeyLocus s bl head).ctx = head := by
  simp only [addKeyLocus]
  rw [rebuild_climbWhileDifferLE, rebuild_addDescend]
  rfl

theorem allNodesB_insertNetmaskAt {p : Nat → Option SCRadixPrefix → List Nat → Bool}
    {m : Nat} {n : SCRadixNode}
    (hins : ∀ b q nm, p b q nm = true → p b q (SCRadixInsertNetmask m nm) = true)
    (hn : allNodesB p n = true) : allNodesB p (insertNetmaskAt n m) = true := by
  cases n with
  | null => exact hn
  | node b q nm l r =>
    simp only [insertNetmaskAt, allNodesB, Bool.and_eq_true] at hn ⊢
    exact ⟨⟨hins _ _ _ hn.1.1, hn.1.2⟩, hn.2⟩

theorem allNodesB_addKeyRegisterNetmask
    {p : Nat → Option SCRadixPrefix → List Nat → Bool} {m : Nat}
    {start : SCRadixNode} {ctx : List Crumb}
    (hins : ∀ b q nm, p b q nm = true → p b q (SCRadixInsertNetmask m nm) = true)
    (hstart : allNodesB p start = true) (hctx : ctxB p ctx = true) :
    allNodesB p (addKeyRegisterNetmask m start ctx).1 = true := by
  unfold addKeyRegisterNetmask
  have h2 : allNodesB p (rebuild (registerNetmaskClimb m start ctx).1
      (registerNetmaskClimb m start ctx).2) = true := by
    rw [rebuild_registerNetmaskClimb]
    exact (allNodesB_rebuild _ _).mpr ⟨hstart, hctx⟩
  have h3 := (allNodesB_rebuild _ _).mp h2
  exact (allNodesB_rebuild _ _).mpr ⟨allNodesB_insertNetmaskAt hins h3.1, h3.2⟩

theorem allNodesB_addKeyFinish
    {p : Nat → Option SCRadixPrefix → List Nat → Bool} {m : Nat}
    {start ret : SCRadixNode} {ctx : List Crumb}
    (hins : ∀ b q nm, p b q nm = true → p b q (SCRadixInsertNetmask m nm) = true)
    (hstart : allNodesB p start = true) (hctx : ctxB p ctx = true) :
    allNodesB p (addKeyFinish m start ctx ret).1 = true := by
  unfold addKeyFinish
  split
  · exact allNodesB_addKeyRegisterNetmask hins hstart hctx
  · exact (allNodesB_rebuild _ _).mpr ⟨hstart, hctx⟩

theorem allNodesB_addKeyCaseA
    {p : Nat → Option SCRadixPrefix → List Nat → Bool}
    {stream : List Nat} {pfxbitlen user m : Nat}
    (happend : ∀ b q nm, p b (some q) nm = true →
      p b (some (SCRadixAddNetmaskUserDataToPrefix q m user)) nm = true)
    (hattach : ∀ b nm, p b none nm = true →
      p b (SCRadixCreatePrefix stream pfxbitlen user 255) nm = true)
    (hins : ∀ b q nm, p b q nm = true → p b q (SCRadixInsertNetmask m nm) = true) :
    ∀ (cur : SCRadixNode) (ctx : List Crumb),
    allNodesB p cur = true → ctxB p ctx = true →
    allNodesB p (addKeyCaseA stream pfxbitlen user m cur ctx).1 = true := by
  intro cur ctx hcur hctx
  cases cur with
  | null => exact (allNodesB_rebuild _ _).mpr ⟨rfl, hctx⟩
  | node b q nm l r =>
    simp only [allNodesB, Bool.and_eq_true] at hcur
    cases q with
    | some q0 =>
      simp only [addKeyCaseA]
      split
      · exact (allNodesB_rebuild _ _).mpr
          ⟨by simp only [allNodesB, Bool.and_eq_true]; exact hcur, hctx⟩
      · split
        · exact (allNodesB_rebuild _ _).mpr
            ⟨by simp only [allNodesB, Bool.and_eq_true]
                exact ⟨⟨happend _ _ _ hcur.1.1, hcur.1.2⟩, hcur.2⟩, hctx⟩
        · exact allNodesB_addKeyRegisterNetmask hins
            (by simp only [allNodesB, Bool.and_eq_true]
                exact ⟨⟨happend _ _ _ hcur.1.1, hcur.1.2⟩, hcur.2⟩) hctx
    | none =>
      simp only [addKeyCaseA]
      exact (allNodesB_rebuild _ _).mpr
        ⟨by simp only [allNodesB, Bool.and_eq_true]
            exact ⟨⟨hattach _ _ hcur.1.1, hcur.1.2⟩, hcur.2⟩, hctx⟩

theorem allNodesB_addKeyCaseB
    {p : Nat → Option SCRadixPrefix → List Nat → Bool}
    {pfx : SCRadixPrefix} {m : Nat} {bstream : List Nat} {d : Nat}
    (hnew : p pfx.bitlen (some pfx) [] = true)
    (hins : ∀ b q nm, p b q nm = true → p b q (SCRadixInsertNetmask m nm) = true) :
    ∀ (cur : SCRadixNode) (ctx : List Crumb),
    allNodesB p cur = true → ctxB p ctx = true →
    allNodesB p (addKeyCaseB pfx m bstream d cur ctx).1 = true := by
  intro cur ctx hcur hctx
  unfold addKeyCaseB
  split
  · exact allNodesB_addKeyFinish hins
      (by simp only [allNodesB, Bool.and_eq_true]
          exact ⟨⟨hnew, trivial⟩, hcur⟩) hctx
  · exact allNodesB_addKeyFinish hins
      (by simp only [allNodesB, Bool.and_eq_true]
          exact ⟨⟨hnew, hcur⟩, trivial⟩) hctx

theorem allNodesB_addKeyCaseC
    {p : Nat → Option SCRadixPrefix → List Nat → Bool}
    {pfx : SCRadixPrefix} {m : Nat} {stream : List Nat} {d : Nat}
    (hnew : p pfx.bitlen (some pfx) [] = true)
    (hins : ∀ b q nm, p b q nm = true → p b q (SCRadixInsertNetmask m nm) = true)
    (hsplit : ∀ b q nm, p b q nm = true →
      p b q (SCRadixSplitNetmasks nm d).1 = true ∧
      p d none (SCRadixSplitNetmasks nm d).2 = true) :
    ∀ (cur : SCRadixNode) (ctx : List Crumb),
    allNodesB p cur = true → ctxB p ctx = true →
    allNodesB p (addKeyCaseC pfx m stream d cur ctx).1 = true := by
  intro cur ctx hcur hctx
  cases cur with
  | null => exact (allNodesB_rebuild _ _).mpr ⟨rfl, hctx⟩
  | node b q nm l r =>
    simp only [allNodesB, Bool.and_eq_true] at hcur
    simp only [addKeyCaseC]
    apply allNodesB_addKeyFinish hins
    · simp only [allNodesB, Bool.and_eq_true]
      exact ⟨⟨hnew, trivial⟩, trivial⟩
    · simp only [ctxB, List.all_cons, Bool.and_eq_true]
      refine ⟨?_, hctx⟩
      simp only [crumbB, allNodesB, Bool.and_eq_true]
      exact ⟨(hsplit _ _ _ hcur.1.1).2, ⟨(hsplit _ _ _ hcur.1.1).1, hcur.1.2⟩, hcur.2⟩

theorem allNodesB_addKeyDispatch
    {p : Nat → Option SCRadixPrefix → List Nat → Bool}
    {pfx : SCRadixPrefix} {user m : Nat} {lc : AddLocus}
    (hnew : p pfx.bitlen (some pfx) [] = true)
    (happend : ∀ b q nm, p b (some q) nm = true →
      p b (some (SCRadixAddNetmaskUserDataToPrefix q m user)) nm = true)
    (hattach : ∀ b nm, p b none nm = true →
      p b (SCRadixCreatePrefix pfx.stream pfx.bitlen user 255) nm = true)
    (hins : ∀ b q nm, p b q nm = true → p b q (SCRadixInsertNetmask m nm) = true)
    (hsplit : ∀ b q nm d, p b q nm = true →
      p b q (SCRadixSplitNetmasks nm d).1 = true ∧
      p d none (SCRadixSplitNetmasks nm d).2 = true)
    (hcur : allNodesB p lc.cur = true) (hctx : ctxB p lc.ctx = true) :
    allNodesB p (addKeyDispatch pfx user m lc).1 = true := by
  unfold addKeyDispatch
  split
  · exact allNodesB_addKeyCaseA happend hattach hins _ _ hcur hctx
  · split
    · exact allNodesB_addKeyCaseB hnew hins _ _ hcur hctx
    · exact allNodesB_addKeyCaseC hnew hins (fun b q nm => hsplit b q nm _) _ _ hcur hctx

/-- Master preservation lemma: any per-node predicate `p` that is closed under the
user-data append, the 255-attachment, the netmask insertion and the Case-C partition,
and that holds of freshly created leaves and roots, holds of every node after
`SCRadixAddKey`. -/
theorem allNodesB_SCRadixAddKey
    {p : Nat → Option SCRadixPrefix → List Nat → Bool}
    (key_stream : List Nat) (key_bitlen : Nat) (head : SCRadixNode) (user m : Nat)
    (hnew : ∀ s bl, p bl (some ⟨s, bl, [⟨m, user⟩]⟩) [] = true)
    (hroot : ∀ s bl, p bl (some ⟨s, bl, [⟨m, user⟩]⟩) [m] = true)
    (happend : ∀ b q nm, p b (some q) nm = true →
      p b (some (SCRadixAddNetmaskUserDataToPrefix q m user)) nm = true)
    (hattach : ∀ b nm s bl, p b none nm = true →
      p b (SCRadixCreatePrefix s bl user 255) nm = true)
    (hins : ∀ b q nm, p b q nm = true → p b q (SCRadixInsertNetmask m nm) = true)
    (hsplit : ∀ b q nm d, p b q nm = true →
      p b q (SCRadixSplitNetmasks nm d).1 = true ∧
      p d none (SCRadixSplitNetmasks nm d).2 = true)
    (hhead : allNodesB p head = true) :
    allNodesB p (SCRadixAddKey key_stream key_bitlen head user m).1 = true := by
  unfold SCRadixAddKey
  split
  · exact hhead
  · rename_i pfx hcp
    have hpfx := SCRadixCreatePrefix_eq_some hcp
    subst hpfx
    cases head with
    | null =>
      by_cases hm : m = 255 ∨ m = 32 ∨ m = 128
      · rw [if_pos hm]
        simpa [allNodesB] using hnew _ _
      · rw [if_neg hm]
        simpa [allNodesB] using hroot _ _
    | node hb hpp hnm hl hr =>
      have hnav := @allNodesB_rebuild p
        (addKeyLocus (List.map (fun i =>
            (SCRadixChopIPAddressAgainstNetmask key_stream m key_bitlen).getD i 0)
          (List.range (key_bitlen / 8))) (key_bitlen % 256) (.node hb hpp hnm hl hr)).ctx
        (addKeyLocus (List.map (fun i =>
            (SCRadixChopIPAddressAgainstNetmask key_stream m key_bitlen).getD i 0)
          (List.range (key_bitlen / 8))) (key_bitlen % 256) (.node hb hpp hnm hl hr)).cur
      rw [rebuild_addKeyLocus] at hnav
      exact allNodesB_addKeyDispatch (hnew _ _) happend
        (fun b nm => hattach b nm _ _) hins hsplit
        (hnav.mp hhead).1 (hnav.mp hhead).2

/-! ## The netmask insertion loop keeps the arrays in descending order -/

/-- Insertion into an ascending-sorted list in front of the first strictly greater
element.  The array loop `SCRadixNetmaskInsertLoop` bubbles the appended netmask leftward
past every entry `<= netmask`, which is exactly this operation performed on the reversed
list (`SCRadixInsertNetmask_eq_bubble` below). -/
def bubbleInsert (m : Nat) : List Nat → List Nat
  | [] => [m]
  | x :: xs => if m < x then m :: x :: xs else x :: bubbleInsert m xs

theorem netmaskInsertLoop_append (m : Nat) :
    ∀ (fuel : Nat) (a tail : List Nat), fuel < a.length →
    SCRadixNetmaskInsertLoop m (a ++ tail) fuel =
      SCRadixNetmaskInsertLoop m a fuel ++ tail := by
  intro fuel
  induction fuel with
  | zero => intro a tail h; rfl
  | succ i ih =>
    intro a tail h
    unfold SCRadixNetmaskInsertLoop
    rw [List.getD_append _ _ _ i (by omega)]
    split
    · rw [List.set_append, if_pos (by omega)]
    · rw [List.set_append, if_pos (by omega), List.set_append,
        if_pos (by rw [List.length_set]; omega)]
      exact ih _ tail (by rw [List.length_set, List.length_set]; omega)

theorem SCRadixInsertNetmask_eq_bubble (m : Nat) (l : List Nat) :
    SCRadixInsertNetmask m l = (bubbleInsert m l.reverse).reverse := by
  induction l using List.reverseRecOn with
  | nil => rfl
  | append_singleton xs x ih =>
    have hl : (xs ++ [x]).length = xs.length + 1 := by simp
    rw [SCRadixInsertNetmask, hl, SCRadixNetmaskInsertLoop]
    have hg : ((xs ++ [x]) ++ [m]).getD xs.length 0 = x := by
      rw [List.getD_append _ _ _ _ (by simp),
        List.getD_append_right _ _ _ _ (le_refl _)]
      simp
    rw [hg]
    by_cases hm : m < x
    · rw [if_pos hm]
      rw [List.set_append, if_neg (by simp)]
      simp [bubbleInsert, hm]
    · rw [if_neg hm]
      have h1 : ((xs ++ [x]) ++ [m]).set (xs.length + 1) x = (xs ++ [x]) ++ [x] := by
        rw [List.set_append, if_neg (by simp)]
        simp
      have h2 : ((xs ++ [x]) ++ [x]).set xs.length m = (xs ++ [m]) ++ [x] := by
        rw [List.set_append, if_pos (by simp),
          List.set_append, if_neg (by simp)]
        simp
      rw [h1, h2, netmaskInsertLoop_append m xs.length (xs ++ [m]) [x] (by simp)]
      have h3 : SCRadixNetmaskInsertLoop m (xs ++ [m]) xs.length =
          SCRadixInsertNetmask m xs := rfl
      rw [h3, ih]
      simp [bubbleInsert, hm]

theorem sortedAscB_bubbleInsert (m : Nat) :
    ∀ (l : List Nat), sortedAscB l = true → sortedAscB (bubbleInsert m l) = true := by
  intro l
  induction l with
  | nil => intro _; rfl
  | cons x xs ih =>
    cases xs with
    | nil =>
      intro _
      by_cases hm : m < x
      · simp [bubbleInsert, hm, sortedAscB]; omega
      · simp [bubbleInsert, hm, sortedAscB]; omega
    | cons y t =>
      intro h
      simp only [sortedAscB, Bool.and_eq_true, decide_eq_true_eq] at h
      by_cases hm : m < x
      · simp only [bubbleInsert, if_pos hm, sortedAscB, Bool.and_eq_true,
          decide_eq_true_eq]
        exact ⟨by omega, h.1, h.2⟩
      · by_cases hmy : m < y
        · simp only [bubbleInsert, if_neg hm, if_pos hmy, sortedAscB,
            Bool.and_eq_true, decide_eq_true_eq]
          exact ⟨by omega, by omega, h.2⟩
        · have hrec := ih h.2
          simp only [bubbleInsert, if_neg hmy] at hrec
          simp only [bubbleInsert, if_neg hm, if_neg hmy, sortedAscB,
            Bool.and_eq_true, decide_eq_true_eq]
          exact ⟨h.1, hrec⟩

theorem sortedAscB_iff_chain' :
    ∀ (l : List Nat), sortedAscB l = true ↔ List.Chain' (· ≤ ·) l := by
  intro l
  induction l with
  | nil => simp [sortedAscB]
  | cons x xs ih =>
    cases xs with
    | nil => simp [sortedAscB]
    | cons y t =>
      simp only [sortedAscB, Bool.and_eq_true, decide_eq_true_eq,
        List.chain'_cons] at ih ⊢
      tauto

theorem sortedDescB_iff_chain' :
    ∀ (l : List Nat), sortedDescB l = true ↔ List.Chain' (· ≥ ·) l := by
  intro l
  induction l with
  | nil => simp [sortedDescB]
  | cons x xs ih =>
    cases xs with
    | nil => simp [sortedDescB]
    | cons y t =>
      simp only [sortedDescB, Bool.and_eq_true, decide_eq_true_eq,
        List.chain'_cons] at ih ⊢
      constructor
      · intro hh; exact ⟨hh.1, (ih.mp hh.2)⟩
      · intro hh; exact ⟨hh.1, (ih.mpr hh.2)⟩

theorem sortedDescB_iff_asc_reverse (l : List Nat) :
    sortedDescB l = true ↔ sortedAscB l.reverse = true := by
  rw [sortedDescB_iff_chain', sortedAscB_iff_chain']
  exact Iff.symm List.chain'_reverse

theorem sortedDescB_SCRadixInsertNetmask {m : Nat} {l : List Nat}
    (h : sortedDescB l = true) :
    sortedDescB (SCRadixInsertNetmask m l) = true := by
  rw [SCRadixInsertNetmask_eq_bubble, sortedDescB_iff_asc_reverse,
    List.reverse_reverse]
  exact sortedAscB_bubbleInsert m l.reverse ((sortedDescB_iff_asc_reverse l).mp h)

theorem sortedDescB_iff_pairwise (l : List Nat) :
    sortedDescB l = true ↔ List.Pairwise (· ≥ ·) l :=
  (sortedDescB_iff_chain' l).trans List.chain'_iff_pairwise

theorem sortedDescB_SCRadixSplitNetmasks {l : List Nat} {d : Nat}
    (h : sortedDescB l = true) :
    sortedDescB (SCRadixSplitNetmasks l d).1 = true ∧
    sortedDescB (SCRadixSplitNetmasks l d).2 = true := by
  rw [sortedDescB_iff_pairwise] at h
  constructor
  · rw [sortedDescB_iff_pairwise]
    exact List.Pairwise.sublist (List.takeWhile_sublist _) h
  · rw [sortedDescB_iff_pairwise]
    exact List.Pairwise.sublist (List.dropWhile_sublist _) h

/-- C4 (corrected): when an insertion creates an intermediate node with discriminator
bit `differ_bit` (Case C), the existing node's propagation list — kept in descending
order by `SCRadixAddKey` — is partitioned so that exactly the entries
`≥ differ_bit + 1` REMAIN on the original node (first component) and the entries
`< differ_bit + 1` MOVE to the intermediate node (second component): the reverse of the
claimed direction, refuted above by `C4_counterexample`. -/
theorem C4_split_partition {l : List Nat} (d : Nat)
    (h : sortedDescB l = true) :
    SCRadixSplitNetmasks l d =
      (l.filter (fun m => d + 1 ≤ m), l.filter (fun m => m < d + 1)) := by
  rw [sortedDescB_iff_pairwise] at h
  unfold SCRadixSplitNetmasks
  induction l with
  | nil => rfl
  | cons x xs ih =>
    rw [List.pairwise_cons] at h
    by_cases hx : x < d + 1
    · have hall : ∀ y ∈ x :: xs, y < d + 1 := by
        intro y hy
        rcases List.mem_cons.mp hy with hy | hy
        · omega
        · have := h.1 y hy; omega
      rw [List.takeWhile_cons, if_neg (by simpa using hx), List.dropWhile_cons,
        if_neg (by simpa using hx)]
      have hfil1 : List.filter (fun m => decide (d + 1 ≤ m)) (x :: xs) = [] := by
        rw [List.filter_eq_nil_iff]
        intro a ha
        have := hall a ha
        simp
        omega
      have hfil2 : List.filter (fun m => decide (m < d + 1)) (x :: xs) = x :: xs := by
        rw [List.filter_eq_self]
        intro a ha
        simpa using hall a ha
      rw [hfil1, hfil2]
    · have ih2 := ih h.2
      rw [List.takeWhile_cons, if_pos (by simpa using hx), List.dropWhile_cons,
        if_pos (by simpa using hx), List.filter_cons, if_pos (by simp; omega),
        List.filter_cons, if_neg (by simpa using hx)]
      rw [Prod.mk.injEq] at ih2 ⊢
      exact ⟨by rw [ih2.1], ih2.2⟩

/-- Witness for C4 at the list `[24, 16]` and `differ_bit = 17`. -/
theorem C4_split_partition_witness :
    sortedDescB [24, 16] = true ∧
    SCRadixSplitNetmasks [24, 16] 17 =
      ([24, 16].filter (fun m => 17 + 1 ≤ m), [24, 16].filter (fun m => m < 17 + 1)) :=
  ⟨by decide, C4_split_partition 17 (by decide)⟩

/-! ## Claim C3 (amended): the propagation lists stay sorted in descending order -/

/-- An insertion request as accepted by `SCRadixAddKey`: key stream, bitlen, user
payload and netmask (255 = generic, 32/128 = host, anything else = netblock). -/
structure AddReq where
  key_stream : List Nat
  key_bitlen : Nat
  user : Nat
  netmask : Nat
deriving DecidableEq, Repr

/-- Run a sequence of insertions against an initially empty tree. -/
def execAdds (reqs : List AddReq) : SCRadixNode :=
  reqs.foldl
    (fun t rq => (SCRadixAddKey rq.key_stream rq.key_bitlen t rq.user rq.netmask).1)
    .null

theorem allNetmasksDescending_eq_allNodesB (t : SCRadixNode) :
    allNetmasksDescending t = allNodesB (fun _ _ nm => sortedDescB nm) t := by
  induction t with
  | null => rfl
  | node b q nm l r ihl ihr => simp [allNetmasksDescending, allNodesB, ihl, ihr]

/-- C3 (corrected): after any sequence of insertions into an initially empty tree, every
node's netmask-propagation list is sorted in DESCENDING order (each insertion of a
non-host netmask keeps the chosen node's list descending); the claimed ascending order is
refuted by `C3_counterexample`. -/
theorem C3_netmasks_descending (reqs : List AddReq) :
    allNetmasksDescending (execAdds reqs) = true := by
  rw [allNetmasksDescending_eq_allNodesB]
  have aux : ∀ (rs : List AddReq) (t : SCRadixNode),
      allNodesB (fun _ _ nm => sortedDescB nm) t = true →
      allNodesB (fun _ _ nm => sortedDescB nm)
        (rs.foldl (fun t rq =>
          (SCRadixAddKey rq.key_stream rq.key_bitlen t rq.user rq.netmask).1) t)
        = true := by
    intro rs
    induction rs with
    | nil => intro t ht; exact ht
    | cons rq rest ih =>
      intro t ht
      exact ih _ (allNodesB_SCRadixAddKey _ _ _ _ _
        (fun _ _ => rfl) (fun _ _ => rfl)
        (fun _ _ _ hq => hq) (fun _ _ _ _ hq => hq)
        (fun _ _ _ hq => sortedDescB_SCRadixInsertNetmask hq)
        (fun _ _ nm d hq => sortedDescB_SCRadixSplitNetmasks hq) ht)
  exact aux reqs .null rfl

/-! ## Claim C9: stored prefixes always carry a non-empty user-data list -/

/-- The per-node predicate of claim C9: a node that carries a prefix has a non-empty
user-data list. -/
def prefixNonEmptyUD (b : Nat) (q : Option SCRadixPrefix) (nm : List Nat) : Bool :=
  Option.all (fun q0 => !q0.user_data.isEmpty) q

/-- Claim C9's invariant at one tree. -/
def allPrefixesNonEmptyUD : SCRadixNode → Bool :=
  allNodesB prefixNonEmptyUD

theorem SCRadixAppendToSCRadixUserDataList_ne_nil (e : SCRadixUserData) :
    ∀ (l : List SCRadixUserData), SCRadixAppendToSCRadixUserDataList e l ≠ [] := by
  intro l
  cases l with
  | nil => simp [SCRadixAppendToSCRadixUserDataList]
  | cons x xs =>
    unfold SCRadixAppendToSCRadixUserDataList
    split <;> simp

theorem length_SCRadixRemoveNetmaskUserDataFromPrefix (m : Nat) :
    ∀ (l : List SCRadixUserData),
    l.length - 1 ≤ (SCRadixRemoveNetmaskUserDataFromPrefix m l).length := by
  intro l
  induction l with
  | nil => simp [SCRadixRemoveNetmaskUserDataFromPrefix]
  | cons x xs ih =>
    unfold SCRadixRemoveNetmaskUserDataFromPrefix
    split
    · simp
    · simp only [List.length_cons]
      omega

theorem allNodesB_p9_SCRadixRemoveNetblockEntry {b : Nat} {q : SCRadixPrefix}
    {nm : List Nat} {l r : SCRadixNode} {m : Nat}
    (h : allNodesB prefixNonEmptyUD (.node b (some q) nm l r) = true)
    (hc : 1 < q.user_data.length) :
    allNodesB prefixNonEmptyUD
      (SCRadixRemoveNetblockEntry (.node b (some q) nm l r) m) = true := by
  simp only [allNodesB, Bool.and_eq_true] at h
  have hud : prefixNonEmptyUD b (some
      ⟨q.stream, q.bitlen, SCRadixRemoveNetmaskUserDataFromPrefix m q.user_data⟩) nm
      = true := by
    have := length_SCRadixRemoveNetmaskUserDataFromPrefix m q.user_data
    simp only [prefixNonEmptyUD, Option.all_some, Bool.not_eq_true']
    rw [List.isEmpty_eq_false, ← List.length_pos]
    omega
  simp only [SCRadixRemoveNetblockEntry, Option.map_some]
  split
  · simp only [allNodesB, Bool.and_eq_true]
    exact ⟨⟨hud, h.1.2⟩, h.2⟩
  · split
    · simp only [allNodesB, Bool.and_eq_true]
      exact ⟨⟨hud, h.1.2⟩, h.2⟩
    · simp only [allNodesB, Bool.and_eq_true]
      exact ⟨⟨hud, h.1.2⟩, h.2⟩

theorem allNodesB_p9_SCRadixTransferNetmasksBWNodes {dest : SCRadixNode}
    {extra : List Nat} (h : allNodesB prefixNonEmptyUD dest = true) :
    allNodesB prefixNonEmptyUD (SCRadixTransferNetmasksBWNodes dest extra) = true := by
  cases dest with
  | null => exact h
  | node b q nm l r => exact h

theorem allNodesB_p9_SCRadixRemoveKeyAt (qs : List Nat) (kb m : Nat)
    (head : SCRadixNode) (res : Option (SCRadixNode × List Crumb))
    (hhead : allNodesB prefixNonEmptyUD head = true)
    (hres : ∀ n ctx, res = some (n, ctx) → rebuild n ctx = head) :
    allNodesB prefixNonEmptyUD (SCRadixRemoveKeyAt qs kb m head res) = true := by
  match res with
  | none => exact hhead
  | some (.null, ctx) => exact hhead
  | some (.node b p nm l r, ctx) =>
    have hparts := (allNodesB_rebuild ctx (.node b p nm l r)).mp
      (by rw [hres _ _ rfl]; exact hhead)
    simp only [SCRadixRemoveKeyAt]
    split
    · exact hhead
    · split
      · exact hhead
      · rename_i q
        split
        · exact hhead
        · split
          · exact hhead
          · split
            · rename_i hcnt
              refine (allNodesB_rebuild _ _).mpr ⟨?_, hparts.2⟩
              exact allNodesB_p9_SCRadixRemoveNetblockEntry hparts.1
                (by simpa [SCRadixPrefixNetmaskCount] using hcnt)
            · split
              · rfl
              · rename_i c rest
                have hctx := hparts.2
                simp only [ctxB, List.all_cons, Bool.and_eq_true] at hctx
                refine (allNodesB_rebuild _ _).mpr ⟨?_, hctx.2⟩
                apply allNodesB_p9_SCRadixTransferNetmasksBWNodes
                have hcb := hctx.1
                simp only [crumbB, Bool.and_eq_true] at hcb
                exact hcb.2

theorem allNodesB_p9_SCRadixRemoveKey (ks : List Nat) (kb m : Nat)
    (head : SCRadixNode)
    (hhead : allNodesB prefixNonEmptyUD head = true) :
    allNodesB prefixNonEmptyUD (SCRadixRemoveKey ks kb head m) = true := by
  cases head with
  | null => exact hhead
  | node hb hp hnm hl hr =>
    simp only [SCRadixRemoveKey]
    split
    · exact hhead
    · exact allNodesB_p9_SCRadixRemoveKeyAt _ _ _ _ _ hhead
        (fun n ctx h => rebuild_strictDescendCtx _ _ _ _ _ _ h)

/-- One tree operation, covering every mutating entry point of the API: `add` with
netmask 255 is `SCRadixAddKeyGeneric`, with 32/128 the host adds, and with any other
netmask the netblock adds; `remove` likewise wraps all the removal entry points. -/
inductive RadixOp : Type where
  | add (key_stream : List Nat) (key_bitlen user netmask : Nat) : RadixOp
  | remove (key_stream : List Nat) (key_bitlen netmask : Nat) : RadixOp
deriving DecidableEq, Repr

/-- Execute one operation on a tree. -/
def execOp (t : SCRadixNode) : RadixOp → SCRadixNode
  | .add ks kb u m => (SCRadixAddKey ks kb t u m).1
  | .remove ks kb m => SCRadixRemoveKey ks kb t m

/-- Execute a sequence of operations against an initially empty tree. -/
def execOps (ops : List RadixOp) : SCRadixNode :=
  ops.foldl execOp .null

/-- C9: after any sequence of insertions and removals starting from the empty tree,
every stored prefix has a non-empty user-data list — prefix creation attaches one entry,
appends only grow the list, and the per-entry removal path runs only when the list has
more than one entry (a sole entry disappears only together with its node) — so the
unguarded head dereference in `SCRadixPrefixContainNetmaskAndSetUserData` never sees an
empty list. -/
theorem C9_nonempty_user_data (ops : List RadixOp) :
    allPrefixesNonEmptyUD (execOps ops) = true := by
  have aux : ∀ (os : List RadixOp) (t : SCRadixNode),
      allNodesB prefixNonEmptyUD t = true →
      allNodesB prefixNonEmptyUD (os.foldl execOp t) = true := by
    intro os
    induction os with
    | nil => intro t ht; exact ht
    | cons op rest ih =>
      intro t ht
      refine ih _ ?_
      cases op with
      | add ks kb u m =>
        refine allNodesB_SCRadixAddKey _ _ _ _ _
          (fun _ _ => rfl) (fun _ _ => rfl)
          (fun b q nm hq => ?_) (fun b nm s bl hq => ?_)
          (fun _ _ _ hq => hq) (fun _ _ _ _ hq => ⟨hq, rfl⟩) ht
        · simp only [prefixNonEmptyUD, SCRadixAddNetmaskUserDataToPrefix,
            Option.all_some, Bool.not_eq_true']
          rw [List.isEmpty_eq_false]
          exact SCRadixAppendToSCRadixUserDataList_ne_nil _ _
        · unfold SCRadixCreatePrefix
          split
          · exact hq
          · rfl
      | remove ks kb m => exact allNodesB_p9_SCRadixRemoveKey _ _ _ _ ht
  exact aux ops .null rfl

/-! ## Claim C10: exact generic lookup always misses -/

/-- The per-node predicate of claim C10: every user-data entry stored anywhere in the
tree carries the generic sentinel netmask 255. -/
def allUD255 (b : Nat) (q : Option SCRadixPrefix) (nm : List Nat) : Bool :=
  Option.all (fun q0 => q0.user_data.all (fun ud => ud.netmask == 255)) q

theorem all255_SCRadixAppend {u : Nat} {l : List SCRadixUserData}
    (h : l.all (fun ud => ud.netmask == 255) = true) :
    (SCRadixAppendToSCRadixUserDataList ⟨255, u⟩ l).all
      (fun ud => ud.netmask == 255) = true := by
  induction l with
  | nil => rfl
  | cons x xs ih =>
    simp only [List.all_cons, Bool.and_eq_true] at h
    unfold SCRadixAppendToSCRadixUserDataList
    split
    · simp only [List.all_cons, Bool.and_eq_true]
      exact ⟨rfl, h.1, h.2⟩
    · simp only [List.all_cons, Bool.and_eq_true]
      exact ⟨h.1, ih h.2⟩

/-- Trees built by generic insertions only satisfy `allUD255` everywhere. -/
theorem allUD255_generic_adds (reqs : List (List Nat × Nat × Nat)) :
    allNodesB allUD255
      (reqs.foldl (fun t rq => (SCRadixAddKeyGeneric rq.1 rq.2.1 t rq.2.2).1) .null)
      = true := by
  have aux : ∀ (rs : List (List Nat × Nat × Nat)) (t : SCRadixNode),
      allNodesB allUD255 t = true →
      allNodesB allUD255
        (rs.foldl (fun t rq => (SCRadixAddKeyGeneric rq.1 rq.2.1 t rq.2.2).1) t)
        = true := by
    intro rs
    induction rs with
    | nil => intro t ht; exact ht
    | cons rq rest ih =>
      intro t ht
      refine ih _ (allNodesB_SCRadixAddKey _ _ _ _ 255
        (fun _ _ => rfl) (fun _ _ => rfl)
        (fun b q nm hq => ?_) (fun b nm s bl hq => ?_)
        (fun _ _ _ hq => hq) (fun _ _ _ _ hq => ⟨hq, rfl⟩) ht)
      · simp only [allUD255, SCRadixAddNetmaskUserDataToPrefix,
          Option.all_some] at hq ⊢
        exact all255_SCRadixAppend hq
      · unfold SCRadixCreatePrefix
        split
        · exact hq
        · rfl
  exact aux reqs .null rfl

theorem contain255_exact_eq_none {q : SCRadixPrefix} {bl : Nat}
    (h : q.user_data.all (fun ud => ud.netmask == 255) = true)
    (hbl : bl ≠ 255) :
    SCRadixPrefixContainNetmaskAndSetUserData q bl true = none := by
  unfold SCRadixPrefixContainNetmaskAndSetUserData
  cases hud : q.user_data with
  | nil => rfl
  | cons hd tl =>
    rw [hud] at h
    simp only [List.all_cons, Bool.and_eq_true, beq_iff_eq] at h
    have hne : ¬ hd.netmask = bl := by omega
    simp [hne]

theorem SCRadixFindKeyAt_exact_none_of_all255 {qs : List Nat} {kb : Nat}
    {head : SCRadixNode} {res : Option (SCRadixNode × List Crumb)}
    (hhead : allNodesB allUD255 head = true)
    (hres : ∀ n ctx, res = some (n, ctx) → rebuild n ctx = head)
    (hbl : kb ≠ 255) :
    SCRadixFindKeyAt qs kb true res = none := by
  match res with
  | none => rfl
  | some (.null, ctx) => rfl
  | some (.node b p nm l r, ctx) =>
    have hparts := (allNodesB_rebuild ctx (.node b p nm l r)).mp
      (by rw [hres _ _ rfl]; exact hhead)
    simp only [SCRadixFindKeyAt]
    split
    · rfl
    · split
      · rfl
      · rename_i q
        have h255 : q.user_data.all (fun ud => ud.netmask == 255) = true := by
          have := hparts.1
          simp only [allNodesB, allUD255, Option.all_some, Bool.and_eq_true] at this
          exact this.1.1
        split
        · rw [contain255_exact_eq_none h255 hbl]; rfl
        · rfl

theorem SCRadixFindKey_exact_none_of_all255 (ks : List Nat) (kb : Nat)
    (t : SCRadixNode) (hall : allNodesB allUD255 t = true) (hbl : kb ≠ 255) :
    SCRadixFindKey ks kb t true = none := by
  cases t with
  | null => rfl
  | node hb hp hnm hl hr =>
    simp only [SCRadixFindKey]
    split
    · rfl
    · exact SCRadixFindKeyAt_exact_none_of_all255 hall
        (fun n ctx h => rebuild_strictDescendCtx _ _ _ _ _ _ h) hbl

/-- C10: for every tree whose entries were all inserted via `SCRadixAddKeyGeneric`
(sentinel netmask 255) and every query whose bitlen is a positive multiple of 8, the
exact generic lookup `SCRadixFindKeyGeneric` returns no match — even for a key that was
just inserted — because exact lookup succeeds only when the stored head netmask equals
the query bitlen, and 255 is never a multiple of 8. -/
theorem C10_generic_exact_find_misses (reqs : List (List Nat × Nat × Nat))
    (key_stream : List Nat) (key_bitlen : Nat)
    (h8 : key_bitlen % 8 = 0) (h0 : 0 < key_bitlen) :
    SCRadixFindKeyGeneric key_stream key_bitlen
      (reqs.foldl (fun t rq => (SCRadixAddKeyGeneric rq.1 rq.2.1 t rq.2.2).1) .null)
      = none := by
  unfold SCRadixFindKeyGeneric
  exact SCRadixFindKey_exact_none_of_all255 _ _ _
    (allUD255_generic_adds reqs) (by omega)

/-- Witness for C10: the generic key "abaa" (bytes [97, 98, 97, 97], bitlen 32) is
inserted and then immediately missed by the exact generic lookup. -/
theorem C10_generic_exact_find_misses_witness :
    (32 : Nat) % 8 = 0 ∧ (0 : Nat) < 32 ∧
    SCRadixFindKeyGeneric [97, 98, 97, 97] 32
      ([([97, 98, 97, 97], 32, 7)].foldl
        (fun t rq => (SCRadixAddKeyGeneric rq.1 rq.2.1 t rq.2.2).1) .null) = none :=
  ⟨rfl, by decide,
    C10_generic_exact_find_misses [([97, 98, 97, 97], 32, 7)] [97, 98, 97, 97] 32
      rfl (by decide)⟩

/-! ## Claim C7: duplicate insertions are silently idempotent -/

/-- The byte stream stored in the prefix `SCRadixAddKey` creates for a key: the first
`bitlen/8` bytes of the netmask-chopped key. -/
def addKeyPrefixStream (key_stream : List Nat) (key_bitlen netmask : Nat) : List Nat :=
  queryStream (SCRadixChopIPAddressAgainstNetmask key_stream netmask key_bitlen)
    key_bitlen

/-- C7: inserting a `(key, netmask)` pair whose prefix and netmask entry already exist in
the tree is silently idempotent.  "Already exists" is stated operationally: the insertion
walk and climb (`addKeyLocus`) land on a node with `bit == differ_bit == bitlen` whose
prefix's user-data list already contains the netmask.  Then `SCRadixAddKey` reports no
error (returns that node, not NULL) and returns the tree head entirely unchanged. -/
theorem C7_duplicate_insert_idempotent (key_stream : List Nat) (key_bitlen : Nat)
    (head : SCRadixNode) (user netmask : Nat) (q : SCRadixPrefix)
    (h8 : key_bitlen % 8 = 0) (h0 : key_bitlen ≠ 0) (hhead : head ≠ .null)
    (hd : (addKeyLocus (addKeyPrefixStream key_stream key_bitlen netmask)
        (key_bitlen % 256) head).differ_bit = key_bitlen % 256)
    (hb : nodeBit (addKeyLocus (addKeyPrefixStream key_stream key_bitlen netmask)
        (key_bitlen % 256) head).cur = key_bitlen % 256)
    (hq : nodePfx (addKeyLocus (addKeyPrefixStream key_stream key_bitlen netmask)
        (key_bitlen % 256) head).cur = some q)
    (hcont : SCRadixPrefixContainNetmask q netmask = true) :
    SCRadixAddKey key_stream key_bitlen head user netmask =
      (head, some (addKeyLocus (addKeyPrefixStream key_stream key_bitlen netmask)
        (key_bitlen % 256) head).cur) := by
  have hcp : SCRadixCreatePrefix
      (SCRadixChopIPAddressAgainstNetmask key_stream netmask key_bitlen)
      key_bitlen user netmask =
      some ⟨addKeyPrefixStream key_stream key_bitlen netmask, key_bitlen,
            [⟨netmask, user⟩]⟩ := by
    unfold SCRadixCreatePrefix
    rw [if_neg (by omega)]
    rfl
  cases head with
  | null => exact absurd rfl hhead
  | node hb0 hp0 hnm0 hl0 hr0 =>
    unfold SCRadixAddKey
    rw [hcp]
    dsimp only
    unfold addKeyDispatch
    rw [if_pos ⟨hd, hb⟩]
    rcases hc : (addKeyLocus (addKeyPrefixStream key_stream key_bitlen netmask)
        (key_bitlen % 256) (SCRadixNode.node hb0 hp0 hnm0 hl0 hr0)).cur with
      _ | ⟨b, p, nm, l, r⟩
    · rw [hc] at hq
      exact absurd hq (by simp [nodePfx])
    · rw [hc] at hq
      simp only [nodePfx] at hq
      subst hq
      simp only [addKeyCaseA]
      rw [if_pos hcont, Prod.mk.injEq]
      constructor
      · rw [← hc]
        exact rebuild_addKeyLocus _ _ _
      · rfl

/-- Witness for C7: the tree holding 10.0.0.0/16 (user 1), re-inserting 10.0.0.0/16. -/
theorem C7_duplicate_insert_idempotent_witness :
    SCRadixAddKey [10, 0, 0, 0] 32
        (SCRadixAddKeyIPV4Netblock [10, 0, 0, 0] .null 1 16).1 9 16 =
      ((SCRadixAddKeyIPV4Netblock [10, 0, 0, 0] .null 1 16).1,
       some (addKeyLocus (addKeyPrefixStream [10, 0, 0, 0] 32 16) (32 % 256)
         (SCRadixAddKeyIPV4Netblock [10, 0, 0, 0] .null 1 16).1).cur) :=
  C7_duplicate_insert_idempotent [10, 0, 0, 0] 32
    (SCRadixAddKeyIPV4Netblock [10, 0, 0, 0] .null 1 16).1 9 16
    ⟨[10, 0, 0, 0], 32, [⟨16, 1⟩]⟩ (by decide) (by decide) (by decide)
    (by decide) (by decide) (by decide) (by decide)
